import Mathlib

/-!
Verification of the torch backend neural-network shim
(src/keras/backend/torch/nn.py) against its natural-language
specification.

The Python module is a stateless adapter: every function normalizes its
arguments (tuple standardization, layout transposition, padding
computation) and dispatches to a native torch primitive.  We embed the
module shallowly:

* machine integers become Int (Python floor division is Int.fdiv and
  Python mod on a positive modulus is Int.emod);
* tensors become a shape (List Nat) plus a row-major flat data list;
* float arithmetic is embedded exactly over the rationals, with the
  transcendental functions exp and log of the engine passed as explicit
  function parameters;
* fallible code returns Except String;
* the native torch primitives themselves are not part of the repository;
  where a claim is about the arguments handed to a primitive, the
  embedded function returns a record of the call it would make.
-/

/-- Python floor division by an integer, `a // b`.  Python floors, so this
is Int.fdiv, not the truncating Int.div. -/
def pyFloorDiv (a b : Int) : Int := Int.fdiv a b

/-- Python `a % b`.  For a positive modulus Python returns the
representative in `[0, b)`, which is Int.emod. -/
def pyMod (a b : Int) : Int := a % b

/-- Embedding of `_compute_padding_length(input_length, kernel_length,
stride, dilation_rate)` from src/keras/backend/torch/nn.py lines 110-119:
`total = dilation_rate * (kernel_length - 1) - (input_length - 1) % stride`,
`left = total // 2`, `right = (total + 1) // 2`. -/
def compute_padding_length (input_length kernel_length stride : Int)
    (dilation_rate : Int) : Int × Int :=
  let total_padding_length :=
    dilation_rate * (kernel_length - 1) - pyMod (input_length - 1) stride
  (pyFloorDiv total_padding_length 2, pyFloorDiv (total_padding_length + 1) 2)

theorem fdiv_two_eq_ediv (a : Int) : Int.fdiv a 2 = a / 2 :=
  Int.fdiv_eq_ediv a (by norm_num)

theorem compute_padding_length_eq (L K S D : Int) :
    compute_padding_length L K S D =
      ((D * (K - 1) - (L - 1) % S) / 2, (D * (K - 1) - (L - 1) % S + 1) / 2) := by
  show (Int.fdiv _ 2, Int.fdiv _ 2) = _
  rw [fdiv_two_eq_ediv, fdiv_two_eq_ediv]
  rfl

/-- The effective size of a convolution window of `kernel_length` taps at
dilation `dilation_rate`: `D * (K - 1) + 1`. -/
def effectiveKernelSize (K D : Int) : Int := D * (K - 1) + 1

/-- Number of windows of effective size `EK` slid with stride `S` over a
length-`M` axis (valid convolution output length), for `EK ≤ M`. -/
def validConvOutputLength (M EK S : Int) : Int := (M - EK) / S + 1

/-- Ceiling division `⌈L / S⌉` for a positive `S`. -/
def ceilDivInt (L S : Int) : Int := (L + S - 1) / S

theorem ceilDivInt_eq (L S : Int) (hS : S ≠ 0) :
    ceilDivInt L S = (L - 1) / S + 1 := by
  unfold ceilDivInt
  have h : L + S - 1 = L - 1 + 1 * S := by ring
  rw [h, Int.add_mul_ediv_right (L - 1) 1 hS]

/-- Claim C1, counterexample: at `input_length = 2`, `kernel_length = 1`,
`stride = 2`, `dilation_rate = 1` (all at least 1), the code returns
`(left, right) = (-1, 0)`, whose sum is negative — refuting the part of
the claim that says `left + right ≥ 0` for all such inputs. -/
theorem c1_counterexample :
    (1 ≤ (2 : Int) ∧ 1 ≤ (1 : Int) ∧ 1 ≤ (2 : Int) ∧ 1 ≤ (1 : Int)) ∧
    compute_padding_length 2 1 2 1 = (-1, 0) ∧
    (compute_padding_length 2 1 2 1).1 + (compute_padding_length 2 1 2 1).2 < 0 := by
  refine ⟨by norm_num, ?_, ?_⟩ <;> decide

/-- Claim C1, amended: for `input_length, kernel_length, stride,
dilation_rate ≥ 1` the pair `(left, right)` returned by
`_compute_padding_length` always satisfies `left ≤ right ≤ left + 1`
(right-biased split), and `left + right ≥ 0` holds under the additional
condition `(input_length - 1) % stride ≤ dilation_rate * (kernel_length - 1)`
(in particular whenever `kernel_length ≥ stride`); without that condition
the sum can be negative. -/
theorem c1_amended (L K S D : Int) (hL : 1 ≤ L) (hK : 1 ≤ K) (hS : 1 ≤ S)
    (hD : 1 ≤ D) :
    (compute_padding_length L K S D).1 ≤ (compute_padding_length L K S D).2 ∧
    (compute_padding_length L K S D).2 ≤ (compute_padding_length L K S D).1 + 1 ∧
    ((L - 1) % S ≤ D * (K - 1) →
      0 ≤ (compute_padding_length L K S D).1 + (compute_padding_length L K S D).2) := by
  rw [compute_padding_length_eq]
  generalize D * (K - 1) = a
  generalize (L - 1) % S = r
  dsimp only
  refine ⟨by omega, by omega, fun h => by omega⟩

/-- Witness for c1_amended at `(L, K, S, D) = (5, 3, 2, 1)`. -/
theorem c1_witness :
    (compute_padding_length 5 3 2 1).1 ≤ (compute_padding_length 5 3 2 1).2 ∧
    (compute_padding_length 5 3 2 1).2 ≤ (compute_padding_length 5 3 2 1).1 + 1 ∧
    ((5 - 1 : Int) % 2 ≤ 1 * (3 - 1) →
      0 ≤ (compute_padding_length 5 3 2 1).1 + (compute_padding_length 5 3 2 1).2) :=
  c1_amended 5 3 2 1 (by norm_num) (by norm_num) (by norm_num) (by norm_num)

/-- Claim C4, counterexample: at `input_length = 2`, `kernel_length = 1`,
`stride = 2`, `dilation_rate = 1` the code returns `(left, right) = (-1, 0)`
with `left + right = -1`, yet a total padding of `0` already makes a window
of effective size `1*(1-1)+1` slid with stride `2` over length `2 + 0`
produce output length `ceil(2/2)`; the minimum such (nonnegative) total
padding is therefore `0 ≠ -1`, refuting the claim at this input. -/
theorem c4_counterexample :
    compute_padding_length 2 1 2 1 = (-1, 0) ∧
    validConvOutputLength (2 + 0) (effectiveKernelSize 1 1) 2 = ceilDivInt 2 2 ∧
    (compute_padding_length 2 1 2 1).1 + (compute_padding_length 2 1 2 1).2 ≠ 0 := by
  refine ⟨by decide, by decide, by decide⟩

/-- Claim C4, amended: for `L, K, S, D ≥ 1`, whenever the total
`left + right` returned by `_compute_padding_length` is nonnegative (which
can fail, see the counterexample), it is the minimum total padding `T` such
that a window of effective size `D*(K-1)+1` slid with stride `S` over the
padded length `L + T` produces output length `ceil(L/S)`; moreover the pair
always splits the total right-biasedly, `left = total // 2` and
`right = (total + 1) // 2`. -/
theorem c4_amended (L K S D : Int) (hL : 1 ≤ L) (hK : 1 ≤ K) (hS : 1 ≤ S)
    (hD : 1 ≤ D) :
    (compute_padding_length L K S D).1 =
      ((compute_padding_length L K S D).1 + (compute_padding_length L K S D).2) / 2 ∧
    (compute_padding_length L K S D).2 =
      ((compute_padding_length L K S D).1 + (compute_padding_length L K S D).2 + 1) / 2 ∧
    (0 ≤ (compute_padding_length L K S D).1 + (compute_padding_length L K S D).2 →
      (effectiveKernelSize K D ≤
         L + ((compute_padding_length L K S D).1 + (compute_padding_length L K S D).2) ∧
       validConvOutputLength
         (L + ((compute_padding_length L K S D).1 + (compute_padding_length L K S D).2))
         (effectiveKernelSize K D) S = ceilDivInt L S ∧
       ∀ T : Int, effectiveKernelSize K D ≤ L + T →
         validConvOutputLength (L + T) (effectiveKernelSize K D) S = ceilDivInt L S →
         (compute_padding_length L K S D).1 + (compute_padding_length L K S D).2 ≤ T)) := by
  rw [compute_padding_length_eq]
  dsimp only
  have hS0 : S ≠ 0 := by omega
  have hSpos : (0 : Int) < S := by omega
  have hr0 : 0 ≤ (L - 1) % S := Int.emod_nonneg (L - 1) hS0
  have hrS : (L - 1) % S < S := Int.emod_lt_of_pos (L - 1) hSpos
  have hq0 : 0 ≤ (L - 1) / S := Int.ediv_nonneg (by omega) (by omega)
  have hdec : S * ((L - 1) / S) + (L - 1) % S = L - 1 := Int.ediv_add_emod (L - 1) S
  rw [ceilDivInt_eq L S hS0]
  unfold effectiveKernelSize validConvOutputLength
  obtain ⟨q, r, hqe, hre⟩ : ∃ q r : Int, (L - 1) / S = q ∧ (L - 1) % S = r :=
    ⟨_, _, rfl, rfl⟩
  rw [hqe] at hq0 hdec
  rw [hre] at hr0 hrS hdec
  rw [hqe, hre]
  obtain ⟨a, hae⟩ : ∃ a : Int, D * (K - 1) = a := ⟨_, rfl⟩
  rw [hae]
  have hmul : 0 ≤ S * q := mul_nonneg (by omega) hq0
  refine ⟨by omega, by omega, fun htot => ⟨by omega, ?_, ?_⟩⟩
  · have harg : L + ((a - r) / 2 + (a - r + 1) / 2) - (a + 1) = S * q := by omega
    rw [harg, Int.mul_ediv_cancel_left q hS0]
  · intro T hTle hTout
    have hx : S * ((L + T - (a + 1)) / S) + (L + T - (a + 1)) % S = L + T - (a + 1) :=
      Int.ediv_add_emod (L + T - (a + 1)) S
    have hxr : 0 ≤ (L + T - (a + 1)) % S := Int.emod_nonneg (L + T - (a + 1)) hS0
    have hxq : (L + T - (a + 1)) / S = q := by omega
    rw [hxq] at hx
    omega

/-- Witness for c4_amended at `(L, K, S, D) = (5, 3, 2, 1)`, where the
total is `2 ≥ 0`. -/
theorem c4_witness :
    (compute_padding_length 5 3 2 1).1 =
      ((compute_padding_length 5 3 2 1).1 + (compute_padding_length 5 3 2 1).2) / 2 ∧
    (compute_padding_length 5 3 2 1).2 =
      ((compute_padding_length 5 3 2 1).1 + (compute_padding_length 5 3 2 1).2 + 1) / 2 ∧
    (0 ≤ (compute_padding_length 5 3 2 1).1 + (compute_padding_length 5 3 2 1).2 →
      (effectiveKernelSize 3 1 ≤
         5 + ((compute_padding_length 5 3 2 1).1 + (compute_padding_length 5 3 2 1).2) ∧
       validConvOutputLength
         (5 + ((compute_padding_length 5 3 2 1).1 + (compute_padding_length 5 3 2 1).2))
         (effectiveKernelSize 3 1) 2 = ceilDivInt 5 2 ∧
       ∀ T : Int, effectiveKernelSize 3 1 ≤ 5 + T →
         validConvOutputLength (5 + T) (effectiveKernelSize 3 1) 2 = ceilDivInt 5 2 →
         (compute_padding_length 5 3 2 1).1 + (compute_padding_length 5 3 2 1).2 ≤ T)) :=
  c4_amended 5 3 2 1 (by norm_num) (by norm_num) (by norm_num) (by norm_num)

/-- A torch tensor, embedded as a shape together with its row-major flat
data list.  A well-formed tensor has `data.length = shape.prod`. -/
structure Tensor (α : Type) where
  shape : List Nat
  data : List α
deriving DecidableEq, Repr

/-- Well-formedness: the flat data has exactly one entry per index. -/
def Tensor.wf {α : Type} (t : Tensor α) : Prop :=
  t.data.length = t.shape.prod

/-- Number of dimensions (torch `ndim`). -/
def Tensor.ndim {α : Type} (t : Tensor α) : Nat := t.shape.length

/-- All multi-indices of a shape, in row-major (lexicographic) order, so
that the i-th multi-index addresses the i-th entry of the flat data. -/
def allIndices : List Nat → List (List Nat)
  | [] => [[]]
  | d :: s => (((List.range d).map (fun i => (allIndices s).map (fun m => i :: m)))).flatten

/-- Row-major flat offset of a multi-index. -/
def flatIndex : List Nat → List Nat → Nat
  | _, [] => 0
  | [], _ => 0
  | _ :: s, i :: m => i * s.prod + flatIndex s m

/-- Element of a tensor at a multi-index (0 when out of range). -/
def Tensor.get {α : Type} [Zero α] (t : Tensor α) (m : List Nat) : α :=
  t.data.getD (flatIndex t.shape m) 0

theorem allIndices_length (s : List Nat) : (allIndices s).length = s.prod := by
  induction s with
  | nil => rfl
  | cons d s ih =>
    simp only [allIndices, List.length_flatten, List.map_map]
    have hmap : (List.range d).map (List.length ∘ fun i => (allIndices s).map (fun m => i :: m))
        = (List.range d).map (fun _ => s.prod) := by
      refine List.map_congr_left (fun i _ => ?_)
      simp [ih]
    rw [hmap, List.map_const', List.sum_replicate, List.length_range, smul_eq_mul,
      List.prod_cons]

theorem mem_allIndices_nil (m : List Nat) : m ∈ allIndices [] ↔ m = [] := by
  simp [allIndices]

theorem mem_allIndices_cons (d : Nat) (s : List Nat) (m : List Nat) :
    m ∈ allIndices (d :: s) ↔
      ∃ i m2, m = i :: m2 ∧ i < d ∧ m2 ∈ allIndices s := by
  simp only [allIndices, List.mem_flatten, List.mem_map, List.mem_range]
  constructor
  · rintro ⟨l, ⟨i, hi, rfl⟩, hm⟩
    rcases List.mem_map.mp hm with ⟨m2, hm2, rfl⟩
    exact ⟨i, m2, rfl, hi, hm2⟩
  · rintro ⟨i, m2, rfl, hi, hm2⟩
    exact ⟨(allIndices s).map (fun m => i :: m), ⟨i, hi, rfl⟩, List.mem_map.mpr ⟨m2, hm2, rfl⟩⟩

theorem flatIndex_lt (s : List Nat) (m : List Nat) (hm : m ∈ allIndices s) :
    flatIndex s m < s.prod := by
  induction s generalizing m with
  | nil =>
    rw [mem_allIndices_nil] at hm
    subst hm
    simp [flatIndex]
  | cons d s ih =>
    rw [mem_allIndices_cons] at hm
    obtain ⟨i, m2, rfl, hi, hm2⟩ := hm
    have h2 := ih m2 hm2
    show i * s.prod + flatIndex s m2 < d * s.prod
    calc i * s.prod + flatIndex s m2 < i * s.prod + s.prod := by omega
      _ = (i + 1) * s.prod := by ring
      _ ≤ d * s.prod := Nat.mul_le_mul_right _ (by omega)

theorem getD_flatten_uniform {β : Type} (l : List (List β)) (L : Nat) (d : β)
    (hlen : ∀ c ∈ l, c.length = L) (i r : Nat) (hi : i < l.length) (hr : r < L) :
    l.flatten.getD (i * L + r) d = (l.getD i []).getD r d := by
  induction l generalizing i with
  | nil => simp at hi
  | cons c t ih =>
    cases i with
    | zero =>
      have hc : c.length = L := hlen c (by simp)
      show (c ++ t.flatten).getD (0 * L + r) d = _
      rw [Nat.zero_mul, Nat.zero_add, List.getD_append c t.flatten d r (by omega)]
      rfl
    | succ i =>
      have hc : c.length = L := hlen c (by simp)
      show (c ++ t.flatten).getD ((i + 1) * L + r) d = _
      have hidx : (i + 1) * L + r = c.length + (i * L + r) := by
        rw [hc]; ring
      rw [hidx, List.getD_append_right c t.flatten d (c.length + (i * L + r)) (by omega)]
      have hsub : c.length + (i * L + r) - c.length = i * L + r := by omega
      rw [hsub]
      have ht : ∀ x ∈ t, x.length = L := fun x hx => hlen x (by simp [hx])
      have := ih ht i (by simpa using hi)
      simpa using this

theorem getD_map_range {β : Type} (g : Nat → β) (n i : Nat) (h : i < n) (d : β) :
    ((List.range n).map g).getD i d = g i := by
  have hlen : i < ((List.range n).map g).length := by simpa using h
  rw [List.getD_eq_getElem _ _ hlen, List.getElem_map]
  congr 1
  exact List.getElem_range _ _

theorem getD_map_of_lt {β γ : Type} (g : β → γ) (l : List β) (r : Nat)
    (h : r < l.length) (d1 : γ) (d2 : β) :
    (l.map g).getD r d1 = g (l.getD r d2) := by
  have h1 : r < (l.map g).length := by simpa using h
  rw [List.getD_eq_getElem _ _ h1, List.getD_eq_getElem _ _ h, List.getElem_map]

theorem map_allIndices_getD {β : Type} (s : List Nat) (f : List Nat → β)
    (m : List Nat) (d : β) (hm : m ∈ allIndices s) :
    ((allIndices s).map f).getD (flatIndex s m) d = f m := by
  induction s generalizing m f with
  | nil =>
    rw [mem_allIndices_nil] at hm
    subst hm
    rfl
  | cons dd s ih =>
    rw [mem_allIndices_cons] at hm
    obtain ⟨i, m2, rfl, hi, hm2⟩ := hm
    show (((((List.range dd).map (fun i => (allIndices s).map (fun m => i :: m)))).flatten).map f).getD
      (i * s.prod + flatIndex s m2) d = f (i :: m2)
    rw [List.map_flatten, List.map_map]
    have hchunks : ∀ c ∈ ((List.range dd).map
        (List.map f ∘ fun i => (allIndices s).map (fun m => i :: m))), c.length = s.prod := by
      intro c hc
      rcases List.mem_map.mp hc with ⟨j, _, rfl⟩
      simp [allIndices_length]
    rw [getD_flatten_uniform _ s.prod d hchunks i (flatIndex s m2)
      (by simpa using hi) (flatIndex_lt s m2 hm2)]
    rw [getD_map_range _ dd i hi]
    show (((allIndices s).map (fun m => i :: m)).map f).getD (flatIndex s m2) d = f (i :: m2)
    rw [List.map_map]
    exact ih (f ∘ fun m => i :: m) m2 hm2

theorem allIndices_flatIndex_getD (s : List Nat) (p : Nat) (hp : p < s.prod) :
    flatIndex s ((allIndices s).getD p []) = p := by
  induction s generalizing p with
  | nil =>
    have : p = 0 := by simpa using hp
    subst this
    rfl
  | cons d s ih =>
    have hP : 0 < s.prod := by
      rcases Nat.eq_zero_or_pos s.prod with h0 | h
      · rw [List.prod_cons, h0, Nat.mul_zero] at hp; omega
      · exact h
    have hi : p / s.prod < d := by
      rw [Nat.div_lt_iff_lt_mul hP]
      rw [List.prod_cons] at hp
      exact hp
    have hr : p % s.prod < s.prod := Nat.mod_lt _ hP
    have hidx : p / s.prod * s.prod + p % s.prod = p := by
      rw [Nat.mul_comm]
      exact Nat.div_add_mod p s.prod
    have hchunks : ∀ c ∈ (List.range d).map (fun i => (allIndices s).map (fun m => i :: m)),
        c.length = s.prod := by
      intro c hc
      rcases List.mem_map.mp hc with ⟨j, _, rfl⟩
      simp [allIndices_length]
    have key := getD_flatten_uniform
      ((List.range d).map (fun i => (allIndices s).map (fun m => i :: m)))
      s.prod [] hchunks (p / s.prod) (p % s.prod) (by simpa using hi) hr
    rw [hidx] at key
    show flatIndex (d :: s)
      (((((List.range d).map (fun i => (allIndices s).map (fun m => i :: m)))).flatten).getD p []) = p
    rw [key, getD_map_range _ d _ hi]
    have hlen : p % s.prod < (allIndices s).length := by
      rw [allIndices_length]; exact hr
    rw [getD_map_of_lt (fun m => p / s.prod :: m) (allIndices s) (p % s.prod) hlen [] []]
    show p / s.prod * s.prod + flatIndex s ((allIndices s).getD (p % s.prod) []) = p
    rw [ih _ hr, hidx]

theorem map_getD_allIndices {β : Type} (s : List Nat) (l : List β) (d : β)
    (hl : l.length = s.prod) :
    (allIndices s).map (fun m => l.getD (flatIndex s m) d) = l := by
  apply List.ext_getElem
  · simp [allIndices_length, hl]
  · intro p h1 h2
    rw [List.getElem_map]
    have hp : p < s.prod := by
      have := h1
      rw [List.length_map, allIndices_length] at this
      exact this
    have hlen2 : p < (allIndices s).length := by
      rw [allIndices_length]
      exact hp
    have hmem : (allIndices s)[p] = (allIndices s).getD p [] :=
      (List.getD_eq_getElem _ _ hlen2).symm
    rw [hmem, allIndices_flatIndex_getD s p hp, List.getD_eq_getElem l d h2]

/-- The inverse action of `torch.permute(x, p)` on multi-indices: the
output index `m` reads the input at coordinate `j = p[k]` equal to `m[k]`,
i.e. at `m[indexOf j in p]`. -/
def applyInvPerm (p : List Nat) (m : List Nat) : List Nat :=
  (List.range p.length).map (fun j => m.getD (p.indexOf j) 0)

/-- `torch.permute` over nonnegative dimension numbers: output shape is
`p` applied to the input shape, output entry at `m` is the input entry at
the inverse-permuted index. -/
def permuteNat {α : Type} [Zero α] (p : List Nat) (t : Tensor α) : Tensor α :=
  Tensor.mk (p.map (fun i => t.shape.getD i 0))
    ((allIndices (p.map (fun i => t.shape.getD i 0))).map
      (fun m => t.get (applyInvPerm p m)))

/-- `torch.permute` with python-style possibly-negative dimension numbers
(`-1` meaning the last axis, etc.). -/
def Tensor.permute {α : Type} [Zero α] (t : Tensor α) (p : List Int) : Tensor α :=
  permuteNat (p.map (fun i => (i % (t.shape.length : Int)).toNat)) t

/-- Embedding of `_transpose_spatial_inputs` (nn.py lines 167-183):
channels-last to channels-first, raising for rank outside 3..5. -/
def transpose_spatial_inputs (t : Tensor ℚ) : Except String (Tensor ℚ) :=
  if t.ndim - 2 = 1 then Except.ok (t.permute [0, 2, 1])
  else if t.ndim - 2 = 2 then Except.ok (t.permute [0, 3, 1, 2])
  else if t.ndim - 2 = 3 then Except.ok (t.permute [0, 4, 1, 2, 3])
  else Except.error
    "Inputs must have ndim=3, 4 or 5, corresponding to 1D, 2D and 3D inputs."

/-- Embedding of `_transpose_spatial_outputs` (nn.py lines 186-195): undo
the input transposition; rank outside 3..5 is returned unchanged. -/
def transpose_spatial_outputs (t : Tensor ℚ) : Tensor ℚ :=
  if t.shape.length - 2 = 1 then t.permute [0, 2, 1]
  else if t.shape.length - 2 = 2 then t.permute [0, 2, 3, 1]
  else if t.shape.length - 2 = 3 then t.permute [0, 2, 3, 4, 1]
  else t

/-- Embedding of `_transpose_conv_kernel` (nn.py lines 198-208): keras
`(*spatial, in, out)` kernel layout to torch `(out, in, *spatial)`. -/
def transpose_conv_kernel (t : Tensor ℚ) : Tensor ℚ :=
  if t.shape.length - 2 = 1 then t.permute [2, 1, 0]
  else if t.shape.length - 2 = 2 then t.permute [3, 2, 0, 1]
  else if t.shape.length - 2 = 3 then t.permute [4, 3, 0, 1, 2]
  else t

theorem permuteNat_inv {α : Type} [Zero α] (s : List Nat) (l : List α)
    (p q : List Nat) (hl : l.length = s.prod)
    (hshape : q.map (fun j => (p.map (fun i => s.getD i 0)).getD j 0) = s)
    (hmem : ∀ m ∈ allIndices s,
      applyInvPerm q m ∈ allIndices (p.map (fun i => s.getD i 0)))
    (hcomp : ∀ m ∈ allIndices s, applyInvPerm p (applyInvPerm q m) = m) :
    permuteNat q (permuteNat p (Tensor.mk s l)) = Tensor.mk s l := by
  unfold permuteNat
  refine congrArg₂ Tensor.mk ?_ ?_
  · exact hshape
  · show (allIndices (q.map (fun j =>
        (Tensor.mk (p.map (fun i => (Tensor.mk s l).shape.getD i 0)) _).shape.getD j 0))).map _ = l
    rw [show (Tensor.mk s l).shape = s from rfl]
    rw [show (Tensor.mk (p.map (fun i => s.getD i 0))
      ((allIndices (p.map (fun i => s.getD i 0))).map
        (fun m => (Tensor.mk s l).get (applyInvPerm p m)))).shape
      = p.map (fun i => s.getD i 0) from rfl]
    rw [hshape]
    have helem : ∀ m ∈ allIndices s,
        (Tensor.mk (p.map (fun i => s.getD i 0))
          ((allIndices (p.map (fun i => s.getD i 0))).map
            (fun m2 => (Tensor.mk s l).get (applyInvPerm p m2)))).get (applyInvPerm q m)
        = l.getD (flatIndex s m) 0 := by
      intro m hm
      show ((allIndices (p.map (fun i => s.getD i 0))).map
          (fun m2 => (Tensor.mk s l).get (applyInvPerm p m2))).getD
          (flatIndex (p.map (fun i => s.getD i 0)) (applyInvPerm q m)) 0 = _
      rw [map_allIndices_getD (p.map (fun i => s.getD i 0)) _ _ _ (hmem m hm)]
      show (Tensor.mk s l).get (applyInvPerm p (applyInvPerm q m)) = _
      rw [hcomp m hm]
      rfl
    rw [List.map_congr_left helem]
    exact map_getD_allIndices s l 0 hl

theorem perm_roundtrip3 (a b c : Nat) (l : List ℚ) (hl : l.length = [a, b, c].prod) :
    permuteNat [0, 2, 1] (permuteNat [0, 2, 1] (Tensor.mk [a, b, c] l)) =
      Tensor.mk [a, b, c] l := by
  apply permuteNat_inv _ _ _ _ hl
  · rfl
  · intro m hm
    rw [mem_allIndices_cons] at hm
    obtain ⟨x, m1, rfl, hx, hm1⟩ := hm
    rw [mem_allIndices_cons] at hm1
    obtain ⟨y, m2, rfl, hy, hm2⟩ := hm1
    rw [mem_allIndices_cons] at hm2
    obtain ⟨z, m3, rfl, hz, hm3⟩ := hm2
    rw [mem_allIndices_nil] at hm3
    subst hm3
    show [x, z, y] ∈ allIndices [a, c, b]
    refine (mem_allIndices_cons _ _ _).mpr ⟨x, _, rfl, hx, ?_⟩
    refine (mem_allIndices_cons _ _ _).mpr ⟨z, _, rfl, hz, ?_⟩
    refine (mem_allIndices_cons _ _ _).mpr ⟨y, _, rfl, hy, ?_⟩
    exact (mem_allIndices_nil _).mpr rfl
  · intro m hm
    rw [mem_allIndices_cons] at hm
    obtain ⟨x, m1, rfl, hx, hm1⟩ := hm
    rw [mem_allIndices_cons] at hm1
    obtain ⟨y, m2, rfl, hy, hm2⟩ := hm1
    rw [mem_allIndices_cons] at hm2
    obtain ⟨z, m3, rfl, hz, hm3⟩ := hm2
    rw [mem_allIndices_nil] at hm3
    subst hm3
    rfl

theorem perm_roundtrip4 (a b c d : Nat) (l : List ℚ)
    (hl : l.length = [a, b, c, d].prod) :
    permuteNat [0, 2, 3, 1] (permuteNat [0, 3, 1, 2] (Tensor.mk [a, b, c, d] l)) =
      Tensor.mk [a, b, c, d] l := by
  apply permuteNat_inv _ _ _ _ hl
  · rfl
  · intro m hm
    rw [mem_allIndices_cons] at hm
    obtain ⟨w, m1, rfl, hw, hm1⟩ := hm
    rw [mem_allIndices_cons] at hm1
    obtain ⟨x, m2, rfl, hx, hm2⟩ := hm1
    rw [mem_allIndices_cons] at hm2
    obtain ⟨y, m3, rfl, hy, hm3⟩ := hm2
    rw [mem_allIndices_cons] at hm3
    obtain ⟨z, m4, rfl, hz, hm4⟩ := hm3
    rw [mem_allIndices_nil] at hm4
    subst hm4
    show [w, z, x, y] ∈ allIndices [a, d, b, c]
    refine (mem_allIndices_cons _ _ _).mpr ⟨w, _, rfl, hw, ?_⟩
    refine (mem_allIndices_cons _ _ _).mpr ⟨z, _, rfl, hz, ?_⟩
    refine (mem_allIndices_cons _ _ _).mpr ⟨x, _, rfl, hx, ?_⟩
    refine (mem_allIndices_cons _ _ _).mpr ⟨y, _, rfl, hy, ?_⟩
    exact (mem_allIndices_nil _).mpr rfl
  · intro m hm
    rw [mem_allIndices_cons] at hm
    obtain ⟨w, m1, rfl, hw, hm1⟩ := hm
    rw [mem_allIndices_cons] at hm1
    obtain ⟨x, m2, rfl, hx, hm2⟩ := hm1
    rw [mem_allIndices_cons] at hm2
    obtain ⟨y, m3, rfl, hy, hm3⟩ := hm2
    rw [mem_allIndices_cons] at hm3
    obtain ⟨z, m4, rfl, hz, hm4⟩ := hm3
    rw [mem_allIndices_nil] at hm4
    subst hm4
    rfl

theorem perm_roundtrip5 (a b c d e : Nat) (l : List ℚ)
    (hl : l.length = [a, b, c, d, e].prod) :
    permuteNat [0, 2, 3, 4, 1]
      (permuteNat [0, 4, 1, 2, 3] (Tensor.mk [a, b, c, d, e] l)) =
      Tensor.mk [a, b, c, d, e] l := by
  apply permuteNat_inv _ _ _ _ hl
  · rfl
  · intro m hm
    rw [mem_allIndices_cons] at hm
    obtain ⟨v, m1, rfl, hv, hm1⟩ := hm
    rw [mem_allIndices_cons] at hm1
    obtain ⟨w, m2, rfl, hw, hm2⟩ := hm1
    rw [mem_allIndices_cons] at hm2
    obtain ⟨x, m3, rfl, hx, hm3⟩ := hm2
    rw [mem_allIndices_cons] at hm3
    obtain ⟨y, m4, rfl, hy, hm4⟩ := hm3
    rw [mem_allIndices_cons] at hm4
    obtain ⟨z, m5, rfl, hz, hm5⟩ := hm4
    rw [mem_allIndices_nil] at hm5
    subst hm5
    show [v, z, w, x, y] ∈ allIndices [a, e, b, c, d]
    refine (mem_allIndices_cons _ _ _).mpr ⟨v, _, rfl, hv, ?_⟩
    refine (mem_allIndices_cons _ _ _).mpr ⟨z, _, rfl, hz, ?_⟩
    refine (mem_allIndices_cons _ _ _).mpr ⟨w, _, rfl, hw, ?_⟩
    refine (mem_allIndices_cons _ _ _).mpr ⟨x, _, rfl, hx, ?_⟩
    refine (mem_allIndices_cons _ _ _).mpr ⟨y, _, rfl, hy, ?_⟩
    exact (mem_allIndices_nil _).mpr rfl
  · intro m hm
    rw [mem_allIndices_cons] at hm
    obtain ⟨v, m1, rfl, hv, hm1⟩ := hm
    rw [mem_allIndices_cons] at hm1
    obtain ⟨w, m2, rfl, hw, hm2⟩ := hm1
    rw [mem_allIndices_cons] at hm2
    obtain ⟨x, m3, rfl, hx, hm3⟩ := hm2
    rw [mem_allIndices_cons] at hm3
    obtain ⟨y, m4, rfl, hy, hm4⟩ := hm3
    rw [mem_allIndices_cons] at hm4
    obtain ⟨z, m5, rfl, hz, hm5⟩ := hm4
    rw [mem_allIndices_nil] at hm5
    subst hm5
    rfl

theorem list_length_eq_four {α : Type} {l : List α} (h : l.length = 4) :
    ∃ a b c d, l = [a, b, c, d] := by
  rcases l with _ | ⟨a, t⟩
  · simp at h
  · have ht : t.length = 3 := by simpa using h
    obtain ⟨b, c, d, rfl⟩ := List.length_eq_three.mp ht
    exact ⟨a, b, c, d, rfl⟩

theorem list_length_eq_five {α : Type} {l : List α} (h : l.length = 5) :
    ∃ a b c d e, l = [a, b, c, d, e] := by
  rcases l with _ | ⟨a, t⟩
  · simp at h
  · have ht : t.length = 4 := by simpa using h
    obtain ⟨b, c, d, e, rfl⟩ := list_length_eq_four ht
    exact ⟨a, b, c, d, e, rfl⟩

/-- Claim C10: for tensors of rank 3, 4 or 5,
`_transpose_spatial_outputs` composed with `_transpose_spatial_inputs` is
the identity, and both helpers preserve the rank; for ranks outside 3..5,
`_transpose_spatial_outputs` returns its argument unchanged while
`_transpose_spatial_inputs` raises a ValueError. -/
theorem c10_transpose_inverse (t : Tensor ℚ) (hw : t.wf) :
    ((t.ndim = 3 ∨ t.ndim = 4 ∨ t.ndim = 5) →
      ∃ u, transpose_spatial_inputs t = Except.ok u ∧ u.ndim = t.ndim ∧
        (transpose_spatial_outputs u).ndim = u.ndim ∧
        transpose_spatial_outputs u = t) ∧
    (¬(t.ndim = 3 ∨ t.ndim = 4 ∨ t.ndim = 5) →
      transpose_spatial_outputs t = t ∧
      ∃ msg, transpose_spatial_inputs t = Except.error msg) := by
  obtain ⟨s, l⟩ := t
  constructor
  · intro h
    rcases h with h3 | h4 | h5
    · obtain ⟨a, b, c, rfl⟩ := List.length_eq_three.mp h3
      refine ⟨permuteNat [0, 2, 1] (Tensor.mk [a, b, c] l), rfl, rfl, rfl, ?_⟩
      show permuteNat [0, 2, 1] (permuteNat [0, 2, 1] (Tensor.mk [a, b, c] l)) =
        Tensor.mk [a, b, c] l
      exact perm_roundtrip3 a b c l hw
    · obtain ⟨a, b, c, d, rfl⟩ := list_length_eq_four h4
      refine ⟨permuteNat [0, 3, 1, 2] (Tensor.mk [a, b, c, d] l), rfl, rfl, rfl, ?_⟩
      show permuteNat [0, 2, 3, 1]
          (permuteNat [0, 3, 1, 2] (Tensor.mk [a, b, c, d] l)) =
        Tensor.mk [a, b, c, d] l
      exact perm_roundtrip4 a b c d l hw
    · obtain ⟨a, b, c, d, e, rfl⟩ := list_length_eq_five h5
      refine ⟨permuteNat [0, 4, 1, 2, 3] (Tensor.mk [a, b, c, d, e] l), rfl, rfl, rfl, ?_⟩
      show permuteNat [0, 2, 3, 4, 1]
          (permuteNat [0, 4, 1, 2, 3] (Tensor.mk [a, b, c, d, e] l)) =
        Tensor.mk [a, b, c, d, e] l
      exact perm_roundtrip5 a b c d e l hw
  · intro hn
    push_neg at hn
    obtain ⟨hn3, hn4, hn5⟩ := hn
    have e3 : (Tensor.mk s l).ndim = s.length := rfl
    rw [e3] at hn3 hn4 hn5
    have h1 : ¬ ((Tensor.mk s l).shape.length - 2 = 1) := by
      show ¬ (s.length - 2 = 1)
      omega
    have h2 : ¬ ((Tensor.mk s l).shape.length - 2 = 2) := by
      show ¬ (s.length - 2 = 2)
      omega
    have h3 : ¬ ((Tensor.mk s l).shape.length - 2 = 3) := by
      show ¬ (s.length - 2 = 3)
      omega
    have h1n : ¬ ((Tensor.mk s l).ndim - 2 = 1) := h1
    have h2n : ¬ ((Tensor.mk s l).ndim - 2 = 2) := h2
    have h3n : ¬ ((Tensor.mk s l).ndim - 2 = 3) := h3
    constructor
    · unfold transpose_spatial_outputs
      rw [if_neg h1, if_neg h2, if_neg h3]
    · refine ⟨"Inputs must have ndim=3, 4 or 5, corresponding to 1D, 2D and 3D inputs.", ?_⟩
      unfold transpose_spatial_inputs
      rw [if_neg h1n, if_neg h2n, if_neg h3n]

/-- Witness for c10_transpose_inverse on the rank-3 tensor of shape
`[1, 1, 2]` with data `[5, 7]`. -/
theorem c10_witness :
    ∃ u, transpose_spatial_inputs (Tensor.mk [1, 1, 2] [(5 : ℚ), 7]) = Except.ok u ∧
      u.ndim = (Tensor.mk [1, 1, 2] [(5 : ℚ), 7]).ndim ∧
      (transpose_spatial_outputs u).ndim = u.ndim ∧
      transpose_spatial_outputs u = Tensor.mk [1, 1, 2] [(5 : ℚ), 7] :=
  (c10_transpose_inverse (Tensor.mk [1, 1, 2] [(5 : ℚ), 7]) rfl).1
    (Or.inl rfl)

/-- Resolution of a python/torch possibly-negative axis number against a
rank (torch normalizes `dim=-1` to the last axis, etc.). -/
def resolveAxis (rank : Nat) (a : Int) : Nat := (a % (rank : Int)).toNat

/-- `torch.reshape`: same flat data under a new shape (the caller is
responsible for the sizes matching, as in torch). -/
def torch_reshape {α : Type} (t : Tensor α) (s : List Nat) : Tensor α :=
  Tensor.mk s t.data

/-- Modelled from the spec: the engine's native per-axis softmax
(`torch.nn.functional.softmax(x, dim)`), which normalizes the exponentials
along the given axis only: entry at multi-index `m` becomes
`exp x[m] / sum over i of exp x[m with axis set to i]`.  The engine
exponential is the function parameter `ex`. -/
def tnn_softmax (ex : ℚ → ℚ) (ax : Nat) (t : Tensor ℚ) : Tensor ℚ :=
  Tensor.mk t.shape ((allIndices t.shape).map (fun m =>
    ex (t.get m) /
      ((List.range (t.shape.getD ax 0)).map (fun i => ex (t.get (m.set ax i)))).sum))

/-- Modelled from the spec: the engine's native per-axis log-softmax,
the logarithm of the per-axis softmax. -/
def tnn_log_softmax (lg ex : ℚ → ℚ) (ax : Nat) (t : Tensor ℚ) : Tensor ℚ :=
  Tensor.mk t.shape ((allIndices t.shape).map (fun m =>
    lg (ex (t.get m) /
      ((List.range (t.shape.getD ax 0)).map (fun i => ex (t.get (m.set ax i)))).sum)))

/-- Embedding of `softmax(x, axis)` (nn.py lines 88-96): when the axis is
None, flatten to one dimension, apply the native softmax on the last (only)
axis, and reshape back; otherwise delegate to the native per-axis op. -/
def softmax (ex : ℚ → ℚ) (x : Tensor ℚ) (axis : Option Int) : Tensor ℚ :=
  match axis with
  | none =>
    torch_reshape
      (tnn_softmax ex (resolveAxis 1 (-1)) (torch_reshape x [x.data.length])) x.shape
  | some a => tnn_softmax ex (resolveAxis x.ndim a) x

/-- Embedding of `log_softmax(x, axis)` (nn.py lines 99-107). -/
def log_softmax (lg ex : ℚ → ℚ) (x : Tensor ℚ) (axis : Option Int) : Tensor ℚ :=
  match axis with
  | none =>
    torch_reshape
      (tnn_log_softmax lg ex (resolveAxis 1 (-1)) (torch_reshape x [x.data.length])) x.shape
  | some a => tnn_log_softmax lg ex (resolveAxis x.ndim a) x

theorem flatten_map_singleton {β γ : Type} (l : List β) (g : β → γ) :
    (l.map (fun a => [g a])).flatten = l.map g := by
  induction l with
  | nil => rfl
  | cons a l ih => simp [ih]

theorem allIndices_singleton (N : Nat) :
    allIndices [N] = (List.range N).map (fun i => [i]) := by
  show (((List.range N).map (fun i => (allIndices []).map (fun m => i :: m)))).flatten = _
  have h : (List.range N).map (fun i => (allIndices []).map (fun m => i :: m))
      = (List.range N).map (fun i => [[i]]) := rfl
  rw [h, flatten_map_singleton (List.range N) (fun i => [i])]

theorem flatIndex_singleton (N i : Nat) : flatIndex [N] [i] = i := by
  show i * List.prod [] + flatIndex [] [] = i
  simp [flatIndex]

theorem map_range_getD {β γ : Type} (l : List β) (d : β) (f : β → γ) :
    (List.range l.length).map (fun j => f (l.getD j d)) = l.map f := by
  apply List.ext_getElem
  · simp
  · intro p h1 h2
    have hp : p < l.length := by simpa using h2
    rw [List.getElem_map, List.getElem_map, List.getElem_range,
      List.getD_eq_getElem l d hp]

theorem resolveAxis_one_neg_one : resolveAxis 1 (-1) = 0 := rfl

/-- Claim C7: `softmax(x, axis=None)` and `log_softmax(x, axis=None)`
equal flattening to one dimension, applying the one-dimensional (last-axis)
native reduction, and reshaping back to the original shape; consequently
the normalization runs over all elements of the tensor: entry `i` of the
result is `exp x[i] / sum of exp over the whole tensor` (resp. its log). -/
theorem c7_softmax_axis_none (ex lg : ℚ → ℚ) (x : Tensor ℚ) :
    softmax ex x none =
      torch_reshape (tnn_softmax ex 0 (torch_reshape x [x.data.length])) x.shape ∧
    log_softmax lg ex x none =
      torch_reshape (tnn_log_softmax lg ex 0 (torch_reshape x [x.data.length])) x.shape ∧
    (softmax ex x none).shape = x.shape ∧
    (log_softmax lg ex x none).shape = x.shape ∧
    (∀ i, i < x.data.length →
      (softmax ex x none).data.getD i 0 =
        ex (x.data.getD i 0) / (x.data.map ex).sum) ∧
    (∀ i, i < x.data.length →
      (log_softmax lg ex x none).data.getD i 0 =
        lg (ex (x.data.getD i 0) / (x.data.map ex).sum)) := by
  refine ⟨rfl, rfl, rfl, rfl, ?_, ?_⟩
  · intro i hi
    show ((allIndices [x.data.length]).map
      (fun m => ex ((Tensor.mk [x.data.length] x.data).get m) /
        ((List.range ((Tensor.mk [x.data.length] x.data).shape.getD 0 0)).map
          (fun j => ex ((Tensor.mk [x.data.length] x.data).get (m.set 0 j)))).sum)).getD i 0 = _
    rw [allIndices_singleton, List.map_map]
    rw [getD_map_range _ x.data.length i hi]
    show ex ((Tensor.mk [x.data.length] x.data).get [i]) /
        ((List.range x.data.length).map
          (fun j => ex ((Tensor.mk [x.data.length] x.data).get [j]))).sum = _
    have hget : ∀ k : Nat, (Tensor.mk [x.data.length] x.data).get [k] = x.data.getD k 0 := by
      intro k
      show x.data.getD (flatIndex [x.data.length] [k]) 0 = _
      rw [flatIndex_singleton]
    rw [hget i]
    have hden : (List.range x.data.length).map
        (fun j => ex ((Tensor.mk [x.data.length] x.data).get [j])) = x.data.map ex := by
      have hcong : (List.range x.data.length).map
          (fun j => ex ((Tensor.mk [x.data.length] x.data).get [j]))
          = (List.range x.data.length).map (fun j => ex (x.data.getD j 0)) := by
        refine List.map_congr_left (fun j _ => ?_)
        rw [hget j]
      rw [hcong, map_range_getD x.data 0 ex]
    rw [hden]
  · intro i hi
    show ((allIndices [x.data.length]).map
      (fun m => lg (ex ((Tensor.mk [x.data.length] x.data).get m) /
        ((List.range ((Tensor.mk [x.data.length] x.data).shape.getD 0 0)).map
          (fun j => ex ((Tensor.mk [x.data.length] x.data).get (m.set 0 j)))).sum))).getD i 0 = _
    rw [allIndices_singleton, List.map_map]
    rw [getD_map_range _ x.data.length i hi]
    show lg (ex ((Tensor.mk [x.data.length] x.data).get [i]) /
        ((List.range x.data.length).map
          (fun j => ex ((Tensor.mk [x.data.length] x.data).get [j]))).sum) = _
    have hget : ∀ k : Nat, (Tensor.mk [x.data.length] x.data).get [k] = x.data.getD k 0 := by
      intro k
      show x.data.getD (flatIndex [x.data.length] [k]) 0 = _
      rw [flatIndex_singleton]
    rw [hget i]
    have hden : (List.range x.data.length).map
        (fun j => ex ((Tensor.mk [x.data.length] x.data).get [j])) = x.data.map ex := by
      have hcong : (List.range x.data.length).map
          (fun j => ex ((Tensor.mk [x.data.length] x.data).get [j]))
          = (List.range x.data.length).map (fun j => ex (x.data.getD j 0)) := by
        refine List.map_congr_left (fun j _ => ?_)
        rw [hget j]
      rw [hcong, map_range_getD x.data 0 ex]
    rw [hden]

/-- Witness for c7_softmax_axis_none at `x = [[1, 3]]` (shape `[1, 2]`)
with the identity in place of exp and log: entry 0 of the axis-None
softmax is `1 / (1 + 3)`. -/
theorem c7_witness :
    (softmax id (Tensor.mk [1, 2] [(1 : ℚ), 3]) none).data.getD 0 0 =
      id ((1 : ℚ)) / (([(1 : ℚ), 3]).map id).sum :=
  ((c7_softmax_axis_none id id (Tensor.mk [1, 2] [(1 : ℚ), 3])).2.2.2.2.1) 0
    (by norm_num)

/-- Elementwise map over a tensor (shape unchanged). -/
def map_tensor {α β : Type} (f : α → β) (t : Tensor α) : Tensor β :=
  Tensor.mk t.shape (t.data.map f)

/-- Row written by the native one-hot for class value `j` out of `C`. -/
def oneHotRow (C j : Nat) : List Int :=
  (List.range C).map (fun i => if i = j then 1 else 0)

/-- Modelled from the spec: the engine's native one-hot primitive
(`torch.nn.functional.one_hot`), which rejects invalid class values (the
spec records that it rejects negative indices; it also requires values
below `num_classes`).  On success it appends a length-`num_classes` axis
holding the indicator rows. -/
def tnn_one_hot (x : Tensor Int) (num_classes : Nat) : Option (Tensor Int) :=
  if x.data.all (fun k => decide (0 ≤ k ∧ k < (num_classes : Int))) then
    some (Tensor.mk (x.shape ++ [num_classes])
      (x.data.flatMap (fun k => oneHotRow num_classes k.toNat)))
  else none

/-- The elementwise selection `where(expand_dims(x, -1) >= 0, output, 0)`
of nn.py line 548: the mask has one entry per length-`C` output row, so a
row whose source entry is negative is zeroed. -/
def maskNegativeRows (xs : List Int) (C : Nat) (out : List Int) : List Int :=
  match xs with
  | [] => []
  | k :: ks =>
    ((out.take C).map (fun v => if 0 ≤ k then v else 0)) ++
      maskNegativeRows ks C (out.drop C)

/-- Python list index: nonnegative from the front, negative from the back. -/
def pyIdx (n : Nat) (i : Int) : Nat :=
  if 0 ≤ i then i.toNat else n - (-i).toNat

/-- Python list element assignment with pythonic indexing. -/
def pyListSet (l : List Int) (i : Int) (v : Int) : List Int :=
  l.set (pyIdx l.length i) v

/-- Python list element read with pythonic indexing. -/
def pyListGet (l : List Int) (i : Int) : Int :=
  l.getD (pyIdx l.length i) 0

/-- Python `range(a, b)` over integers. -/
def pythonIntRange (a b : Int) : List Int :=
  (List.range (b - a).toNat).map (fun k => a + (k : Int))

/-- The `new_axes_order` construction of nn.py lines 552-556: start from
`list(range(dims))`, write `-1` at position `axis`, then decrement every
entry from position `axis+1` on. -/
def buildAxesOrder (axis : Int) (dims : Nat) : List Int :=
  (pythonIntRange (axis + 1) (dims : Int)).foldl
    (fun acc ax => pyListSet acc ax (pyListGet acc ax - 1))
    (pyListSet ((List.range dims).map (fun i => (i : Int))) axis (-1))

/-- Embedding of `one_hot(x, num_classes, axis, dtype)` (nn.py lines
538-558): clamp negatives to 0, call the native one-hot, zero the rows of
negative entries, cast to the float dtype, and permute the class axis into
position when it is not the last. -/
def one_hot (x : Tensor Int) (num_classes : Nat) (axis : Int) : Option (Tensor ℚ) :=
  (tnn_one_hot (map_tensor (fun k => max k 0) x) num_classes).map (fun out0 =>
    let out1 : Tensor Int :=
      Tensor.mk out0.shape (maskNegativeRows x.data num_classes out0.data)
    let out2 : Tensor ℚ := map_tensor (fun k : Int => (k : ℚ)) out1
    if axis ≠ -1 ∧ axis ≠ (out2.ndim : Int) then
      out2.permute (buildAxesOrder axis out2.ndim)
    else out2)

theorem oneHotRow_length (C j : Nat) : (oneHotRow C j).length = C := by
  simp [oneHotRow]

theorem mask_flatMap_cast (C : Nat) (hC : 0 < C) :
    ∀ xs : List Int, (∀ k ∈ xs, k < (C : Int)) →
      (maskNegativeRows xs C
        ((xs.map (fun k => max k 0)).flatMap (fun k => oneHotRow C k.toNat))).map
          (fun v : Int => (v : ℚ))
      = xs.flatMap (fun k =>
          if k < 0 then List.replicate C (0 : ℚ)
          else (List.range C).map (fun i : Nat => if (i : Int) = k then (1 : ℚ) else 0)) := by
  intro xs
  induction xs with
  | nil => intro _; rfl
  | cons k ks ih =>
    intro hb
    have hk : k < (C : Int) := hb k (by simp)
    have hrow : (oneHotRow C (max k 0).toNat).length = C := oneHotRow_length _ _
    show (maskNegativeRows (k :: ks) C
      (oneHotRow C (max k 0).toNat ++
        (ks.map (fun k => max k 0)).flatMap (fun k => oneHotRow C k.toNat))).map
          (fun v : Int => (v : ℚ)) = _
    show ((((oneHotRow C (max k 0).toNat ++
        (ks.map (fun k => max k 0)).flatMap (fun k => oneHotRow C k.toNat)).take C).map
          (fun v => if 0 ≤ k then v else 0)) ++
        maskNegativeRows ks C
          ((oneHotRow C (max k 0).toNat ++
            (ks.map (fun k => max k 0)).flatMap (fun k => oneHotRow C k.toNat)).drop C)).map
          (fun v : Int => (v : ℚ)) = _
    have htake : (oneHotRow C (max k 0).toNat ++
        (ks.map (fun k => max k 0)).flatMap (fun k => oneHotRow C k.toNat)).take C
        = oneHotRow C (max k 0).toNat := List.take_left' hrow
    have hdrop : (oneHotRow C (max k 0).toNat ++
        (ks.map (fun k => max k 0)).flatMap (fun k => oneHotRow C k.toNat)).drop C
        = (ks.map (fun k => max k 0)).flatMap (fun k => oneHotRow C k.toNat) :=
      List.drop_left' hrow
    rw [htake, hdrop, List.map_append]
    have hrest := ih (fun a ha => hb a (by simp [ha]))
    rw [hrest]
    show _ ++ _ = (if k < 0 then List.replicate C (0 : ℚ)
      else (List.range C).map (fun i : Nat => if (i : Int) = k then (1 : ℚ) else 0)) ++ _
    congr 1
    by_cases hneg : k < 0
    · rw [if_pos hneg]
      have hmask : (oneHotRow C (max k 0).toNat).map (fun v => if 0 ≤ k then v else 0)
          = List.replicate C (0 : Int) := by
        have : ∀ v ∈ oneHotRow C (max k 0).toNat, (if 0 ≤ k then v else 0) = (0 : Int) := by
          intro v _
          rw [if_neg (by omega)]
        rw [List.map_congr_left this, List.map_const', hrow]
      rw [hmask]
      rw [List.map_replicate]
      rfl
    · rw [if_neg hneg]
      have hk0 : 0 ≤ k := by omega
      have hmask : (oneHotRow C (max k 0).toNat).map (fun v => if 0 ≤ k then v else 0)
          = oneHotRow C (max k 0).toNat := by
        have : ∀ v ∈ oneHotRow C (max k 0).toNat, (if 0 ≤ k then v else 0) = v := by
          intro v _
          rw [if_pos hk0]
        rw [List.map_congr_left this]
        simp
      rw [hmask]
      unfold oneHotRow
      rw [List.map_map]
      refine List.map_congr_left (fun i _ => ?_)
      simp only [Function.comp_apply]
      have hmax : max k 0 = k := by omega
      have hiff : (i = (max k 0).toNat) ↔ ((i : Int) = k) := by
        rw [hmax]
        omega
      by_cases hik : (i : Int) = k
      · rw [if_pos (hiff.mpr hik)]
        show ((1 : Int) : ℚ) = _
        rw [if_pos hik]
        norm_num
      · rw [if_neg (fun h => hik (hiff.mp h))]
        show ((0 : Int) : ℚ) = _
        rw [if_neg hik]
        norm_num

/-- Claim C2, counterexample: the entry `3` is nonnegative yet not below
`num_classes = 3`, and `one_hot([3], 3)` errors (the native one-hot
primitive rejects class values at or above `num_classes`, and the code
only clamps negatives) instead of producing an indicator or all-zero
row — refuting both the claim's promise that invalid entries give
all-zero rows rather than erroring and its promise that every entry
`k ≥ 0` gives an indicator row. -/
theorem c2_counterexample :
    (0 : Int) ≤ 3 ∧ one_hot (Tensor.mk [1] [3]) 3 (-1) = none :=
  ⟨by decide, rfl⟩

/-- Claim C2, amended: for positive `num_classes` and inputs whose entries
are all below `num_classes`, `one_hot` does not error: each negative entry
yields an all-zero row of length `num_classes` and each entry `k ≥ 0`
yields the indicator row with a one at position `k`; in particular
`one_hot([-1, 0, 2], 3)` is `[[0,0,0],[1,0,0],[0,0,1]]`.  An entry at or
above `num_classes` instead makes the call error (`c2_counterexample`),
so the original claim's "rather than erroring" holds only on this
restricted domain. -/
theorem c2_amended :
    (∀ (x : Tensor Int) (C : Nat), 0 < C → (∀ k ∈ x.data, k < (C : Int)) →
      ∃ y, one_hot x C (-1) = some y ∧ y.shape = x.shape ++ [C] ∧
        y.data = x.data.flatMap (fun k =>
          if k < 0 then List.replicate C (0 : ℚ)
          else (List.range C).map
            (fun i : Nat => if (i : Int) = k then (1 : ℚ) else 0))) ∧
    one_hot (Tensor.mk [3] [-1, 0, 2]) 3 (-1) =
      some (Tensor.mk [3, 3] [0, 0, 0, 1, 0, 0, 0, 0, 1]) := by
  constructor
  · intro x C hC hb
    have hall : ((map_tensor (fun k => max k 0) x).data.all
        (fun k => decide (0 ≤ k ∧ k < (C : Int)))) = true := by
      rw [List.all_eq_true]
      intro v hv
      rw [decide_eq_true_eq]
      rcases List.mem_map.mp hv with ⟨k, hk, rfl⟩
      have hkC := hb k hk
      omega
    have htnn : tnn_one_hot (map_tensor (fun k => max k 0) x) C =
        some (Tensor.mk ((map_tensor (fun k => max k 0) x).shape ++ [C])
          ((map_tensor (fun k => max k 0) x).data.flatMap
            (fun k => oneHotRow C k.toNat))) := by
      unfold tnn_one_hot
      rw [if_pos hall]
    refine ⟨map_tensor (fun k : Int => (k : ℚ))
      (Tensor.mk ((map_tensor (fun k => max k 0) x).shape ++ [C])
        (maskNegativeRows x.data C
          ((map_tensor (fun k => max k 0) x).data.flatMap
            (fun k => oneHotRow C k.toNat)))), ?_, ?_, ?_⟩
    · unfold one_hot
      rw [htnn]
      rfl
    · rfl
    · exact mask_flatMap_cast C hC x.data hb
  · decide

/-- Witness for the universally quantified part of c2_amended at
`x = [-5, 1]`, `num_classes = 4`. -/
theorem c2_witness :
    ∃ y, one_hot (Tensor.mk [2] [-5, 1]) 4 (-1) = some y ∧
      y.shape = (Tensor.mk [2] [(-5 : Int), 1]).shape ++ [4] ∧
      y.data = ((Tensor.mk [2] [(-5 : Int), 1]).data).flatMap (fun k =>
        if k < 0 then List.replicate 4 (0 : ℚ)
        else (List.range 4).map
          (fun i : Nat => if (i : Int) = k then (1 : ℚ) else 0)) :=
  c2_amended.1 (Tensor.mk [2] [-5, 1]) 4 (by norm_num) (by decide)

/-- Do two multi-indices agree on every coordinate outside the reduction
axes?  This is the fiber relation of a keepdim reduction over `axes`. -/
def offAxesAgree (rank : Nat) (axes : List Nat) (m o : List Nat) : Bool :=
  (List.range rank).all (fun i => decide (i ∈ axes) || decide (m.getD i 0 = o.getD i 0))

/-- The multi-indices reduced into output position `o` by a keepdim
reduction over `axes`. -/
def fiberIndices (axes : List Nat) (s : List Nat) (o : List Nat) : List (List Nat) :=
  (allIndices s).filter (fun m => offAxesAgree s.length axes m o)

/-- `torch.mean(x, dim=axes, keepdim=True)`: each output entry is the
arithmetic mean of its fiber. -/
def meanAlongAxes (axes : List Nat) (t : Tensor ℚ) : Tensor ℚ :=
  Tensor.mk
    ((List.range t.shape.length).map (fun i => if i ∈ axes then 1 else t.shape.getD i 0))
    ((allIndices ((List.range t.shape.length).map
        (fun i => if i ∈ axes then 1 else t.shape.getD i 0))).map (fun o =>
      ((fiberIndices axes t.shape o).map (fun m => t.get m)).sum /
        (((fiberIndices axes t.shape o).map (fun m => t.get m)).length : ℚ)))

/-- Elementwise subtraction of two same-shape tensors. -/
def zipWithSub (t u : Tensor ℚ) : Tensor ℚ :=
  Tensor.mk t.shape (List.zipWith (fun a b => a - b) t.data u.data)

/-- `torch.squeeze(t, axes)` for axes of (keepdim) size one: drops those
shape entries; the flat data is unchanged. -/
def squeezeAxes (axes : List Nat) (t : Tensor ℚ) : Tensor ℚ :=
  Tensor.mk
    (((List.range t.shape.length).filter (fun i => decide (i ∉ axes))).map
      (fun i => t.shape.getD i 0))
    t.data

/-- `torch.square`. -/
def torch_square (t : Tensor ℚ) : Tensor ℚ := map_tensor (fun v => v * v) t

/-- Embedding of `moments(x, axes, keepdims, synchronized)` (nn.py lines
646-688).  `synchronized=True` raises NotImplementedError.  The variance
is the one-pass `E[x^2] - E[x]^2`; `detach` does not change values, and
the float16-upcast branch is dtype bookkeeping with no effect in this
exact-arithmetic embedding. -/
def moments (x : Tensor ℚ) (axes : List Int) (keepdims synchronized : Bool) :
    Except String (Tensor ℚ × Tensor ℚ) :=
  if synchronized then
    Except.error "Argument synchronized=True is not supported with PyTorch."
  else
    let axesN := axes.map (fun a => resolveAxis x.ndim a)
    let mean := meanAlongAxes axesN x
    let variance := zipWithSub (meanAlongAxes axesN (torch_square x)) (torch_square mean)
    if keepdims then Except.ok (mean, variance)
    else Except.ok (squeezeAxes axesN mean, squeezeAxes axesN variance)

theorem zipWith_map_same {β γ : Type} (op : γ → γ → γ) (f g : β → γ) (l : List β) :
    List.zipWith op (l.map f) (l.map g) = l.map (fun a => op (f a) (g a)) := by
  induction l with
  | nil => rfl
  | cons a l ih => simp [ih]

theorem getD_map_zero {f : ℚ → ℚ} (hf : f 0 = 0) (l : List ℚ) (n : Nat) :
    (l.map f).getD n 0 = f (l.getD n 0) := by
  by_cases h : n < l.length
  · rw [List.getD_eq_getElem _ _ (by simpa using h), List.getD_eq_getElem _ _ h,
      List.getElem_map]
  · rw [List.getD_eq_default _ _ (by simpa using h),
      List.getD_eq_default _ _ (by omega), hf]

theorem square_get (x : Tensor ℚ) (m : List Nat) :
    (torch_square x).get m = x.get m * x.get m := by
  show ((x.data.map (fun v => v * v)).getD (flatIndex x.shape m) 0) = _
  rw [getD_map_zero (by norm_num) x.data]
  rfl

theorem list_cs (l : List ℚ) :
    l.sum * l.sum ≤ (l.length : ℚ) * (l.map (fun a => a * a)).sum := by
  induction l with
  | nil => simp
  | cons a l ih =>
    simp only [List.sum_cons, List.map_cons, List.length_cons]
    push_cast
    by_cases hl : l = []
    · subst hl
      simp
    · have hn : (0 : ℚ) < (l.length : ℚ) := by
        have h0 : 0 < l.length := List.length_pos.mpr hl
        exact_mod_cast h0
      have ih2 : ((l.length : ℚ) + 1) * (l.sum * l.sum) ≤
          ((l.length : ℚ) + 1) * ((l.length : ℚ) * (l.map (fun a => a * a)).sum) :=
        mul_le_mul_of_nonneg_left ih (by linarith)
      have hsq := sq_nonneg ((l.length : ℚ) * a - l.sum)
      have key : (l.length : ℚ) * ((a + l.sum) * (a + l.sum)) ≤
          (l.length : ℚ) *
            (((l.length : ℚ) + 1) * (a * a + (l.map (fun a => a * a)).sum)) := by
        nlinarith [ih2, hsq, hn]
      exact (mul_le_mul_left hn).mp key

theorem one_pass_var_nonneg (l : List ℚ) :
    0 ≤ (l.map (fun a => a * a)).sum / (l.length : ℚ) -
      (l.sum / (l.length : ℚ)) * (l.sum / (l.length : ℚ)) := by
  rcases List.eq_nil_or_concat l with rfl | _
  · simp
  · have hn : (0 : ℚ) < (l.length : ℚ) := by
      have : l ≠ [] := by
        rintro rfl
        simp_all
      have h0 : 0 < l.length := List.length_pos.mpr this
      exact_mod_cast h0
    have hcs := list_cs l
    have hrw : (l.map (fun a => a * a)).sum / (l.length : ℚ) -
        (l.sum / (l.length : ℚ)) * (l.sum / (l.length : ℚ)) =
        ((l.length : ℚ) * (l.map (fun a => a * a)).sum - l.sum * l.sum) /
          ((l.length : ℚ) * (l.length : ℚ)) := by
      field_simp
      ring
    rw [hrw]
    apply div_nonneg
    · linarith
    · positivity

theorem sum_of_const (c : ℚ) : ∀ l : List ℚ, (∀ a ∈ l, a = c) →
    l.sum = (l.length : ℚ) * c := by
  intro l
  induction l with
  | nil => intro _; simp
  | cons a l ih =>
    intro h
    have ha : a = c := h a (by simp)
    have hl := ih (fun b hb => h b (by simp [hb]))
    simp only [List.sum_cons, List.length_cons, ha, hl]
    push_cast
    ring

theorem one_pass_var_const (l : List ℚ) (c : ℚ) (hc : ∀ a ∈ l, a = c) :
    (l.map (fun a => a * a)).sum / (l.length : ℚ) -
      (l.sum / (l.length : ℚ)) * (l.sum / (l.length : ℚ)) = 0 := by
  rcases List.eq_nil_or_concat l with rfl | _
  · simp
  · have hne : l ≠ [] := by
      rintro rfl
      simp_all
    have hn : ((l.length : ℚ)) ≠ 0 := by
      have h0 : 0 < l.length := List.length_pos.mpr hne
      exact_mod_cast Nat.pos_iff_ne_zero.mp h0
    have hs : l.sum = (l.length : ℚ) * c := sum_of_const c l hc
    have hsq : (l.map (fun a => a * a)).sum = (l.length : ℚ) * (c * c) := by
      have hlen : ((l.map (fun a => a * a)).length : ℚ) = (l.length : ℚ) := by
        simp
      have := sum_of_const (c * c) (l.map (fun a => a * a)) (by
        intro a ha
        rcases List.mem_map.mp ha with ⟨b, hb, rfl⟩
        rw [hc b hb])
      rw [this, hlen]
    rw [hs, hsq]
    field_simp

theorem moments_variance_data (x : Tensor ℚ) (axes : List Int) (kd : Bool)
    (mo vr : Tensor ℚ) (h : moments x axes kd false = Except.ok (mo, vr)) :
    vr.data = List.zipWith (fun a b => a - b)
      (meanAlongAxes (axes.map (fun a => resolveAxis x.ndim a)) (torch_square x)).data
      ((meanAlongAxes (axes.map (fun a => resolveAxis x.ndim a)) x).data.map
        (fun a => a * a)) := by
  cases kd
  case false =>
    have h2 : (Except.ok
        (squeezeAxes (axes.map (fun a => resolveAxis x.ndim a))
          (meanAlongAxes (axes.map (fun a => resolveAxis x.ndim a)) x),
         squeezeAxes (axes.map (fun a => resolveAxis x.ndim a))
          (zipWithSub
            (meanAlongAxes (axes.map (fun a => resolveAxis x.ndim a)) (torch_square x))
            (torch_square (meanAlongAxes (axes.map (fun a => resolveAxis x.ndim a)) x))))
        : Except String (Tensor ℚ × Tensor ℚ)) = Except.ok (mo, vr) := h
    have h3 := Except.ok.inj h2
    have h4 : vr = squeezeAxes (axes.map (fun a => resolveAxis x.ndim a))
        (zipWithSub
          (meanAlongAxes (axes.map (fun a => resolveAxis x.ndim a)) (torch_square x))
          (torch_square (meanAlongAxes (axes.map (fun a => resolveAxis x.ndim a)) x))) :=
      (congrArg Prod.snd h3).symm
    rw [h4]
    rfl
  case true =>
    have h2 : (Except.ok
        (meanAlongAxes (axes.map (fun a => resolveAxis x.ndim a)) x,
         zipWithSub
           (meanAlongAxes (axes.map (fun a => resolveAxis x.ndim a)) (torch_square x))
           (torch_square (meanAlongAxes (axes.map (fun a => resolveAxis x.ndim a)) x)))
        : Except String (Tensor ℚ × Tensor ℚ)) = Except.ok (mo, vr) := h
    have h3 := Except.ok.inj h2
    have h4 : vr = zipWithSub
        (meanAlongAxes (axes.map (fun a => resolveAxis x.ndim a)) (torch_square x))
        (torch_square (meanAlongAxes (axes.map (fun a => resolveAxis x.ndim a)) x)) :=
      (congrArg Prod.snd h3).symm
    rw [h4]
    rfl

theorem offAxesAgree_trans (rank : Nat) (axes : List Nat) (m1 m2 o : List Nat)
    (h1 : offAxesAgree rank axes m1 o = true)
    (h2 : offAxesAgree rank axes m2 o = true) :
    offAxesAgree rank axes m1 m2 = true := by
  unfold offAxesAgree at h1 h2 ⊢
  rw [List.all_eq_true] at h1 h2 ⊢
  intro i hi
  have a1 := h1 i hi
  have a2 := h2 i hi
  simp only [Bool.or_eq_true, decide_eq_true_eq] at a1 a2 ⊢
  rcases a1 with ha | ha
  · exact Or.inl ha
  · rcases a2 with hb | hb
    · exact Or.inl hb
    · exact Or.inr (by rw [ha, hb])

theorem meanAlongAxes_square (axesN : List Nat) (x : Tensor ℚ) :
    meanAlongAxes axesN (torch_square x) =
      Tensor.mk
        ((List.range x.shape.length).map
          (fun i => if i ∈ axesN then 1 else x.shape.getD i 0))
        ((allIndices ((List.range x.shape.length).map
            (fun i => if i ∈ axesN then 1 else x.shape.getD i 0))).map
          (fun o =>
            (((fiberIndices axesN x.shape o).map (fun m => x.get m * x.get m)).sum /
              ((((fiberIndices axesN x.shape o).map
                (fun m => x.get m * x.get m)).length : ℚ))))) := by
  unfold meanAlongAxes
  refine congrArg₂ Tensor.mk rfl ?_
  refine List.map_congr_left (fun o _ => ?_)
  show ((fiberIndices axesN x.shape o).map (fun m => (torch_square x).get m)).sum /
      (((fiberIndices axesN x.shape o).map (fun m => (torch_square x).get m)).length : ℚ) = _
  rw [List.map_congr_left (fun m _ => square_get x m)]

/-- Claim C9: the variance returned by `moments(x, axes)` (computed as
`E[x^2] - E[x]^2` over each reduction fiber, in exact arithmetic) is
nonnegative in every position, and when `x` is constant along the
reduction axes (all indices agreeing outside the axes hold equal values)
every variance entry is exactly 0. -/
theorem c9_moments (x : Tensor ℚ) (axes : List Int) (keepdims : Bool)
    (mo vr : Tensor ℚ) (h : moments x axes keepdims false = Except.ok (mo, vr)) :
    (∀ q ∈ vr.data, 0 ≤ q) ∧
    ((∀ m1 ∈ allIndices x.shape, ∀ m2 ∈ allIndices x.shape,
        offAxesAgree x.shape.length (axes.map (fun a => resolveAxis x.ndim a)) m1 m2
          = true →
        x.get m1 = x.get m2) →
      ∀ q ∈ vr.data, q = 0) := by
  have hdata := moments_variance_data x axes keepdims mo vr h
  rw [meanAlongAxes_square] at hdata
  have hdata2 : vr.data =
      (allIndices ((List.range x.shape.length).map
        (fun i => if i ∈ (axes.map (fun a => resolveAxis x.ndim a)) then 1
          else x.shape.getD i 0))).map
        (fun o =>
          ((((fiberIndices (axes.map (fun a => resolveAxis x.ndim a)) x.shape o).map
              (fun m => x.get m)).map (fun a => a * a)).sum /
            (((fiberIndices (axes.map (fun a => resolveAxis x.ndim a)) x.shape o).map
              (fun m => x.get m)).length : ℚ)) -
          ((((fiberIndices (axes.map (fun a => resolveAxis x.ndim a)) x.shape o).map
              (fun m => x.get m)).sum /
            ((((fiberIndices (axes.map (fun a => resolveAxis x.ndim a)) x.shape o).map
              (fun m => x.get m)).length : ℚ))) *
           ((((fiberIndices (axes.map (fun a => resolveAxis x.ndim a)) x.shape o).map
              (fun m => x.get m)).sum /
            ((((fiberIndices (axes.map (fun a => resolveAxis x.ndim a)) x.shape o).map
              (fun m => x.get m)).length : ℚ)))))) := by
    rw [hdata]
    show List.zipWith (fun a b => a - b) _ _ = _
    rw [show (meanAlongAxes (axes.map (fun a => resolveAxis x.ndim a)) x).data
      = (allIndices ((List.range x.shape.length).map
          (fun i => if i ∈ (axes.map (fun a => resolveAxis x.ndim a)) then 1
            else x.shape.getD i 0))).map
        (fun o =>
          ((fiberIndices (axes.map (fun a => resolveAxis x.ndim a)) x.shape o).map
            (fun m => x.get m)).sum /
          (((fiberIndices (axes.map (fun a => resolveAxis x.ndim a)) x.shape o).map
            (fun m => x.get m)).length : ℚ)) from rfl]
    rw [List.map_map, zipWith_map_same]
    refine List.map_congr_left (fun o _ => ?_)
    have hm : (fiberIndices (axes.map (fun a => resolveAxis x.ndim a)) x.shape o).map
        (fun m => x.get m * x.get m)
        = ((fiberIndices (axes.map (fun a => resolveAxis x.ndim a)) x.shape o).map
          (fun m => x.get m)).map (fun a => a * a) := by
      rw [List.map_map]
      rfl
    rw [hm]
    have hlen : (((fiberIndices (axes.map (fun a => resolveAxis x.ndim a)) x.shape o).map
        (fun m => x.get m)).map (fun a => a * a)).length
        = ((fiberIndices (axes.map (fun a => resolveAxis x.ndim a)) x.shape o).map
          (fun m => x.get m)).length := by
      rw [List.length_map]
    rw [hlen]
    rfl
  constructor
  · intro q hq
    rw [hdata2] at hq
    rcases List.mem_map.mp hq with ⟨o, _, rfl⟩
    have := one_pass_var_nonneg
      ((fiberIndices (axes.map (fun a => resolveAxis x.ndim a)) x.shape o).map
        (fun m => x.get m))
    exact this
  · intro hconst q hq
    rw [hdata2] at hq
    rcases List.mem_map.mp hq with ⟨o, _, rfl⟩
    cases hF : fiberIndices (axes.map (fun a => resolveAxis x.ndim a)) x.shape o with
    | nil =>
      simp
    | cons m0 F2 =>
      have hm0 : m0 ∈ fiberIndices (axes.map (fun a => resolveAxis x.ndim a)) x.shape o := by
        rw [hF]
        simp
      have h0 := List.mem_filter.mp hm0
      have hc : ∀ a ∈ (fiberIndices (axes.map (fun a => resolveAxis x.ndim a)) x.shape o).map
          (fun m => x.get m), a = x.get m0 := by
        intro a ha
        rcases List.mem_map.mp ha with ⟨mm, hmm, rfl⟩
        have h1 := List.mem_filter.mp hmm
        exact hconst mm h1.1 m0 h0.1
          (offAxesAgree_trans x.shape.length _ mm m0 o h1.2 h0.2)
      rw [hF] at hc
      exact one_pass_var_const _ (x.get m0) hc

/-- Witness for c9_moments: `moments` of the constant tensor `[3, 3]`
over axis 0; the single variance entry is nonnegative.  The expected mean
and variance are spelled as the unreduced fiber arithmetic so the
hypothesis holds by definitional unfolding. -/
theorem c9_witness :
    0 ≤ ([(3 : ℚ) * 3, 3 * 3].sum) / ((2 : Nat) : ℚ) -
      (([(3 : ℚ), 3].sum) / ((2 : Nat) : ℚ)) *
        (([(3 : ℚ), 3].sum) / ((2 : Nat) : ℚ)) :=
  (c9_moments (Tensor.mk [2] [(3 : ℚ), 3]) [0] false
    (Tensor.mk ([] : List Nat) [([(3 : ℚ), 3].sum) / ((2 : Nat) : ℚ)])
    (Tensor.mk ([] : List Nat)
      [([(3 : ℚ) * 3, 3 * 3].sum) / ((2 : Nat) : ℚ) -
        (([(3 : ℚ), 3].sum) / ((2 : Nat) : ℚ)) *
          (([(3 : ℚ), 3].sum) / ((2 : Nat) : ℚ))])
    rfl).1 _ (List.mem_singleton.mpr rfl)

/-- `torch.sum(t, dim=ax, keepdim=True)`. -/
def sumAlongKeep (ax : Nat) (t : Tensor ℚ) : Tensor ℚ :=
  Tensor.mk (t.shape.set ax 1)
    ((allIndices (t.shape.set ax 1)).map (fun o =>
      ((List.range (t.shape.getD ax 0)).map (fun i => t.get (o.set ax i))).sum))

/-- Broadcast division of `t` by a keepdim tensor `s` whose axis `ax` has
size one (`output / torch.sum(output, dim=axis, keepdim=True)`). -/
def divByKeep (ax : Nat) (t s : Tensor ℚ) : Tensor ℚ :=
  Tensor.mk t.shape
    ((allIndices t.shape).map (fun m => t.get m / s.get (m.set ax 0)))

/-- `torch.clip(t, lo, hi)`: elementwise clamp. -/
def clipT (lo hi : ℚ) (t : Tensor ℚ) : Tensor ℚ :=
  map_tensor (fun v => min (max v lo) hi) t

/-- Elementwise product of two same-shape tensors. -/
def mulT (t u : Tensor ℚ) : Tensor ℚ :=
  Tensor.mk t.shape (List.zipWith (fun a b => a * b) t.data u.data)

/-- Elementwise negation. -/
def negT (t : Tensor ℚ) : Tensor ℚ := map_tensor (fun v => -v) t

/-- `torch.sum(t, dim=ax)` without keepdim: the axis is removed. -/
def sumAlongDrop (ax : Nat) (t : Tensor ℚ) : Tensor ℚ :=
  Tensor.mk (t.shape.eraseIdx ax)
    ((allIndices (t.shape.eraseIdx ax)).map (fun o =>
      ((List.range (t.shape.getD ax 0)).map
        (fun i => t.get (List.insertIdx ax i o))).sum))

/-- Embedding of `categorical_crossentropy(target, output, from_logits,
axis)` (nn.py lines 570-593): shape and rank checks, then
`-sum(target * log_prob, axis)` with `log_prob` the native log-softmax for
logits or the log of the renormalized-and-clipped probabilities.  `lg` and
`ex` are the engine log and exp; `eps` is the configured epsilon. -/
def categorical_crossentropy (lg ex : ℚ → ℚ) (eps : ℚ)
    (target output : Tensor ℚ) (from_logits : Bool) (axis : Int) :
    Except String (Tensor ℚ) :=
  if target.shape ≠ output.shape then
    Except.error "Arguments target and output must have the same shape."
  else if target.shape.length < 1 then
    Except.error "Arguments target and output must be at least rank 1."
  else
    Except.ok (negT (sumAlongDrop (resolveAxis output.shape.length axis)
      (mulT target
        (if from_logits then
          tnn_log_softmax lg ex (resolveAxis output.shape.length axis) output
        else
          map_tensor lg (clipT eps (1 - eps)
            (divByKeep (resolveAxis output.shape.length axis) output
              (sumAlongKeep (resolveAxis output.shape.length axis) output)))))))

/-- Written from the specification text of section 4.8: requires
`target.shape == output.shape` and rank at least 1 (value error otherwise);
if `from_logits`, log-probabilities come from the native log-softmax, else
the output is renormalized to sum to 1 along the axis, clamped into
`[epsilon, 1-epsilon]`, and logged; the result is
`-sum(target * log_prob, axis)`. -/
def categoricalCrossentropySpec (lg ex : ℚ → ℚ) (eps : ℚ)
    (target output : Tensor ℚ) (from_logits : Bool) (axis : Int) :
    Option (Tensor ℚ) :=
  if target.shape = output.shape ∧ 1 ≤ target.shape.length then
    some (negT (sumAlongDrop (resolveAxis output.shape.length axis)
      (mulT target
        (if from_logits then
          tnn_log_softmax lg ex (resolveAxis output.shape.length axis) output
        else
          map_tensor lg (clipT eps (1 - eps)
            (divByKeep (resolveAxis output.shape.length axis) output
              (sumAlongKeep (resolveAxis output.shape.length axis) output)))))))
  else none

/-- Claim C6: `categorical_crossentropy` raises a value error exactly when
the shapes differ or the rank is below 1, and otherwise returns
`-sum(target * log_prob, axis)` with `log_prob` as the spec describes
(native log-softmax for logits, else log of the renormalized clamped
probabilities) — the code agrees with the specification text on every
input. -/
theorem c6_categorical_crossentropy (lg ex : ℚ → ℚ) (eps : ℚ)
    (target output : Tensor ℚ) (from_logits : Bool) (axis : Int) :
    ((∃ e, categorical_crossentropy lg ex eps target output from_logits axis
        = Except.error e) ↔
      (target.shape ≠ output.shape ∨ target.shape.length < 1)) ∧
    (∀ r, categorical_crossentropy lg ex eps target output from_logits axis
        = Except.ok r ↔
      categoricalCrossentropySpec lg ex eps target output from_logits axis
        = some r) := by
  unfold categorical_crossentropy categoricalCrossentropySpec
  by_cases h1 : target.shape = output.shape
  · by_cases h2 : target.shape.length < 1
    · simp only [if_neg (fun hc : target.shape ≠ output.shape => hc h1), if_pos h2,
        if_neg (fun hc : target.shape = output.shape ∧ 1 ≤ target.shape.length =>
          by omega)]
      refine ⟨⟨fun _ => Or.inr h2, fun _ => ⟨_, rfl⟩⟩, fun r => ⟨?_, ?_⟩⟩
      · intro hr
        exact Except.noConfusion hr
      · intro hr
        exact Option.noConfusion hr
    · simp only [if_neg (fun hc : target.shape ≠ output.shape => hc h1), if_neg h2,
        if_pos (⟨h1, by omega⟩ :
          target.shape = output.shape ∧ 1 ≤ target.shape.length)]
      refine ⟨⟨?_, ?_⟩, fun r => ⟨?_, ?_⟩⟩
      · rintro ⟨e, he⟩
        exact Except.noConfusion he
      · rintro (hc | hc)
        · exact absurd h1 hc
        · exact absurd hc h2
      · intro hr
        exact congrArg some (Except.ok.inj hr)
      · intro hr
        exact congrArg Except.ok (Option.some.inj hr)
  · simp only [if_pos h1, if_neg (fun hc : target.shape = output.shape ∧
        1 ≤ target.shape.length => h1 hc.1)]
    refine ⟨⟨fun _ => Or.inl h1, fun _ => ⟨_, rfl⟩⟩, fun r => ⟨?_, ?_⟩⟩
    · intro hr
      exact Except.noConfusion hr
    · intro hr
      exact Option.noConfusion hr

/-- Keras data-format flag, already resolved by
`standardize_data_format` (argument or process default). -/
inductive DataFormat
  | channels_first
  | channels_last
deriving DecidableEq, Repr

/-- The padding argument handed to a native torch op: a string mode, a
single number, or a per-dimension list. -/
inductive PadSpec
  | str (s : String)
  | num (v : Int)
  | list (vs : List Int)
deriving DecidableEq, Repr

/-- Is this computation an error? -/
def isError {α : Type} : Except String α → Bool
  | Except.error _ => true
  | Except.ok _ => false

/-- Modelled from the spec (section 6): `standardize_tuple` from
`keras.utils.argument_validation`, a consumed external helper producing a
fixed-length tuple from a scalar or sequence and raising a value error on
bad length. -/
def standardize_tuple (v : Sum Int (List Int)) (n : Nat) (name : String) :
    Except String (List Int) :=
  match v with
  | Sum.inl x => Except.ok (List.replicate n x)
  | Sum.inr xs =>
    if xs.length = n then Except.ok xs
    else Except.error (name ++ " must be a tuple of the expected length")

/-- Shape of `torch.nn.functional.pad(t, pads)`: `pads` holds
`(left, right)` amounts in reverse dimension order (last dimension
first); negative amounts crop. -/
def padDims (s : List Nat) (pads : List Int) : List Nat :=
  (List.range s.length).map (fun i =>
    if 2 * (s.length - 1 - i) < pads.length then
      ((s.getD i 0 : Int) + pads.getD (2 * (s.length - 1 - i)) 0 +
        pads.getD (2 * (s.length - 1 - i) + 1) 0).toNat
    else s.getD i 0)

/-- Modelled from the spec: `torch.nn.functional.pad` with constant-zero
fill (`replicate_mode = false`) or edge replication
(`replicate_mode = true`). -/
def tnn_pad (t : Tensor ℚ) (pads : List Int) (replicate_mode : Bool) : Tensor ℚ :=
  Tensor.mk (padDims t.shape pads)
    ((allIndices (padDims t.shape pads)).map (fun m =>
      let coords := (List.range t.shape.length).map (fun i =>
        (m.getD i 0 : Int) -
          (if 2 * (t.shape.length - 1 - i) < pads.length then
            pads.getD (2 * (t.shape.length - 1 - i)) 0
          else 0))
      if replicate_mode then
        t.get ((List.range t.shape.length).map (fun i =>
          (min (max (coords.getD i 0) 0) ((t.shape.getD i 0 : Int) - 1)).toNat))
      else if (List.range t.shape.length).all (fun i =>
          decide (0 ≤ coords.getD i 0) &&
          decide (coords.getD i 0 < (t.shape.getD i 0 : Int))) then
        t.get (coords.map Int.toNat)
      else 0))

/-- Embedding of `_apply_same_padding` (nn.py lines 122-164): per spatial
dimension compute the `(left, right)` pair (pooling always uses dilation
1; convolution standardizes the dilation tuple), accumulate the pairs by
prepending (so the tuple ends up in reverse dimension order); if every
pair is symmetric return the tensor unchanged plus the list of left
values, else materialize the padding (replicate mode for pooling,
constant mode for convolution) and return padding amount 0. -/
def apply_same_padding (inputs : Tensor ℚ) (kernel_size strides : List Int)
    (is_pooling : Bool) (dilation_rate : Sum Int (List Int)) :
    Except String (Tensor ℚ × PadSpec) := do
  let spatial_shape := inputs.shape.drop 2
  let nsd := spatial_shape.length
  let sizes ←
    if is_pooling then
      Except.ok ((List.range nsd).map (fun i =>
        compute_padding_length (spatial_shape.getD i 0 : Int) (kernel_size.getD i 0)
          (strides.getD i 0) 1))
    else
      if nsd = 0 then Except.ok ([] : List (Int × Int))
      else do
        let dr ← standardize_tuple dilation_rate nsd "dilation_rate"
        Except.ok ((List.range nsd).map (fun i =>
          compute_padding_length (spatial_shape.getD i 0 : Int) (kernel_size.getD i 0)
            (strides.getD i 0) (dr.getD i 0)))
  let rev := sizes.reverse
  if rev.all (fun p => decide (p.1 = p.2)) then
    Except.ok (inputs, PadSpec.list (rev.map (fun p => p.1)))
  else
    Except.ok (tnn_pad inputs (rev.flatMap (fun p => [p.1, p.2])) is_pooling,
      PadSpec.num 0)

/-- The arguments of a native torch pooling call: which rank-specific
primitive (`num_spatial_dims`), the (possibly transposed and padded) input
tensor, and the kernel/stride/padding arguments.  `count_include_pad` is
only meaningful for average pooling. -/
structure PoolCall where
  num_spatial_dims : Nat
  inputs : Tensor ℚ
  kernel_size : List Int
  strides : List Int
  padding : PadSpec
  count_include_pad : Bool
deriving DecidableEq, Repr

/-- Embedding of `max_pool` (nn.py lines 211-269) up to the native call:
returns the argument record of the torch `max_poolNd` call it performs.
The meta-device workaround only swaps the execution buffer and is not
modelled. -/
def max_pool (inputs : Tensor ℚ) (pool_size : Sum Int (List Int))
    (strides : Option (Sum Int (List Int))) (padding : String)
    (data_format : DataFormat) : Except String PoolCall := do
  let nsd := inputs.ndim - 2
  let ps ← standardize_tuple pool_size nsd "pool_size"
  let st ← match strides with
    | none => Except.ok ps
    | some s => standardize_tuple s nsd "strides"
  let inputs2 ← if data_format = DataFormat.channels_last then
      transpose_spatial_inputs inputs
    else Except.ok inputs
  let pr ← if padding = "same" then
      apply_same_padding inputs2 ps st true (Sum.inl 1)
    else Except.ok (inputs2, PadSpec.num 0)
  if nsd = 1 ∨ nsd = 2 ∨ nsd = 3 then
    Except.ok (PoolCall.mk nsd pr.1 ps st pr.2 true)
  else
    Except.error "Inputs to pooling op must have ndim=3, 4 or 5, corresponding to 1D, 2D and 3D inputs."

/-- Embedding of `average_pool` (nn.py lines 272-345) up to the native
call.  In the `same` branch the left padding of each dimension is passed
to the native op, and each uneven dimension contributes a `[0, 1]` pair
(prepended, as `torch.nn.pad` takes reverse order) that is applied to the
tensor before the call; `count_include_pad` is always `False`. -/
def average_pool (inputs : Tensor ℚ) (pool_size : Sum Int (List Int))
    (strides : Option (Sum Int (List Int))) (padding : String)
    (data_format : DataFormat) : Except String PoolCall := do
  let nsd := inputs.ndim - 2
  let ps ← standardize_tuple pool_size nsd "pool_size"
  let st ← match strides with
    | none => Except.ok ps
    | some s => standardize_tuple s nsd "strides"
  let inputs2 ← if data_format = DataFormat.channels_last then
      transpose_spatial_inputs inputs
    else Except.ok inputs
  let pr :=
    if padding = "same" then
      let spatial_shape := inputs2.shape.drop 2
      let sizes := (List.range spatial_shape.length).map (fun i =>
        compute_padding_length (spatial_shape.getD i 0 : Int) (ps.getD i 0)
          (st.getD i 0) 1)
      let padding_value := sizes.map (fun p => p.1)
      let uneven_padding := sizes.foldl
        (fun acc p => if p.1 ≠ p.2 then [0, 1] ++ acc else acc) ([] : List Int)
      ((if uneven_padding ≠ [] then tnn_pad inputs2 uneven_padding false
        else inputs2), PadSpec.list padding_value)
    else (inputs2, PadSpec.num 0)
  if nsd = 1 ∨ nsd = 2 ∨ nsd = 3 then
    Except.ok (PoolCall.mk nsd pr.1 ps st pr.2 false)
  else
    Except.error "Inputs to pooling op must have ndim=3, 4 or 5, corresponding to 1D, 2D and 3D inputs."

/-- The arguments of a native torch convolution call: which rank-specific
primitive, the (possibly transposed and padded) input, the transposed
kernel, and the stride/dilation/groups/padding arguments. -/
structure ConvCall where
  num_spatial_dims : Nat
  inputs : Tensor ℚ
  kernel : Tensor ℚ
  strides : List Int
  dilation : Sum Int (List Int)
  groups : Nat
  padding : PadSpec
deriving DecidableEq, Repr

/-- Embedding of `conv` (nn.py lines 348-421) up to the native call:
standardize strides, transpose input and kernel to engine layout, apply
explicit same-padding when `padding = "same"` and some stride is not 1
(else the padding string is passed through), check the input channel
count is divisible by `kernel.shape[1]` (the quotient becomes `groups`),
and dispatch by spatial rank. -/
def conv (inputs kernel : Tensor ℚ) (strides : Sum Int (List Int))
    (padding : String) (data_format : DataFormat)
    (dilation_rate : Sum Int (List Int)) : Except String ConvCall := do
  let nsd := inputs.ndim - 2
  let st ← standardize_tuple strides nsd "strides"
  let inputs2 ← if data_format = DataFormat.channels_last then
      transpose_spatial_inputs inputs
    else Except.ok inputs
  let kernel2 := transpose_conv_kernel kernel
  let pr ← if padding = "same" ∧ st.any (fun d => decide (d ≠ 1)) then
      apply_same_padding inputs2 ((kernel2.shape.drop 2).map (fun d => (d : Int)))
        st false dilation_rate
    else Except.ok (inputs2, PadSpec.str padding)
  let channels := pr.1.shape.getD 1 0
  let kernel_in_channels := kernel2.shape.getD 1 0
  if channels % kernel_in_channels > 0 then
    Except.error "The number of input channels must be evenly divisible by kernel.shape[1]."
  else if nsd = 1 ∨ nsd = 2 ∨ nsd = 3 then
    Except.ok (ConvCall.mk nsd pr.1 kernel2 st dilation_rate
      (channels / kernel_in_channels) pr.2)
  else
    Except.error "Inputs to conv operation should have ndim=3, 4, or 5, corresponding to 1D, 2D and 3D inputs."

/-- Embedding of `depthwise_conv` (nn.py lines 424-436): reshape the
kernel from `(*spatial, channels, multiplier)` to
`(*spatial, 1, channels * multiplier)` and delegate to `conv`. -/
def depthwise_conv (inputs kernel : Tensor ℚ) (strides : Sum Int (List Int))
    (padding : String) (data_format : DataFormat)
    (dilation_rate : Sum Int (List Int)) : Except String ConvCall :=
  conv inputs
    (torch_reshape kernel (kernel.shape.take (kernel.shape.length - 2) ++
      [1, kernel.shape.getD (kernel.shape.length - 2) 0 *
        kernel.shape.getD (kernel.shape.length - 1) 0]))
    strides padding data_format dilation_rate

/-- Modelled from the spec: the output tensor of the native convolution
primitive described by a call record — batch and `out_channels =
kernel.shape[0]` up front, then the standard output length per spatial
dimension (`ceil(L/S)` for string `same`, the valid formula otherwise,
with symmetric numeric padding added in).  Values are not modelled (they
belong to the engine); the data is zero-filled at the right size. -/
def nativeConvOutputShape (c : ConvCall) : List Nat :=
  c.inputs.shape.getD 0 0 :: c.kernel.shape.getD 0 0 ::
    (List.range c.num_spatial_dims).map (fun i =>
      let L : Int := (c.inputs.shape.getD (2 + i) 0 : Int)
      let K : Int := (c.kernel.shape.getD (2 + i) 0 : Int)
      let S : Int := c.strides.getD i 0
      let D : Int := match c.dilation with
        | Sum.inl d => d
        | Sum.inr ds => ds.getD i 0
      (match c.padding with
        | PadSpec.str s =>
          if s = "same" then ceilDivInt L S
          else validConvOutputLength L (effectiveKernelSize K D) S
        | PadSpec.num v =>
          validConvOutputLength (L + 2 * v) (effectiveKernelSize K D) S
        | PadSpec.list vs =>
          validConvOutputLength (L + 2 * vs.getD i 0) (effectiveKernelSize K D) S).toNat)

/-- Modelled from the spec: the zero-filled output buffer of a native
convolution call. -/
def nativeConvOutput (c : ConvCall) : Tensor ℚ :=
  Tensor.mk (nativeConvOutputShape c)
    (List.replicate (nativeConvOutputShape c).prod 0)

/-- `conv` followed by the native call and the output layout restore, as
`separable_conv` consumes it. -/
def conv_output_tensor (inputs kernel : Tensor ℚ) (strides : Sum Int (List Int))
    (padding : String) (data_format : DataFormat)
    (dilation_rate : Sum Int (List Int)) : Except String (Tensor ℚ) :=
  (conv inputs kernel strides padding data_format dilation_rate).map (fun c =>
    if data_format = DataFormat.channels_last then
      transpose_spatial_outputs (nativeConvOutput c)
    else nativeConvOutput c)

/-- `depthwise_conv` followed by the native call and layout restore. -/
def depthwise_conv_output_tensor (inputs kernel : Tensor ℚ)
    (strides : Sum Int (List Int)) (padding : String)
    (data_format : DataFormat) (dilation_rate : Sum Int (List Int)) :
    Except String (Tensor ℚ) :=
  (depthwise_conv inputs kernel strides padding data_format dilation_rate).map
    (fun c =>
      if data_format = DataFormat.channels_last then
        transpose_spatial_outputs (nativeConvOutput c)
      else nativeConvOutput c)

/-- Embedding of `separable_conv` (nn.py lines 439-463): depthwise
convolution, then a unit-stride valid-padding pointwise `conv`. -/
def separable_conv (inputs depthwise_kernel pointwise_kernel : Tensor ℚ)
    (strides : Sum Int (List Int)) (padding : String)
    (data_format : DataFormat) (dilation_rate : Sum Int (List Int)) :
    Except String ConvCall := do
  let mid ← depthwise_conv_output_tensor inputs depthwise_kernel strides padding
    data_format dilation_rate
  conv mid pointwise_kernel (Sum.inl 1) "valid" data_format dilation_rate

/-- Modelled from the spec: the shared backend helper
`compute_conv_transpose_padding_args_for_torch` (outside this module)
reconciles keras padding and output padding with the torch transposed
convolution parameters; no claim depends on its values, so it is a total
function returning zero for both. -/
def compute_conv_transpose_padding_args_for_torch (input_shape kernel_shape : List Nat)
    (strides : List Int) (padding : String) (output_padding : Option Int)
    (dilation_rate : Sum Int (List Int)) : Int × Int :=
  (0, 0)

/-- Embedding of `conv_transpose` (nn.py lines 466-535) up to the native
call: resolve torch padding arguments via the shared helper, transpose
input and kernel, listify a scalar dilation, and dispatch by spatial rank
(the resolved output padding accompanies the native call and is not kept
in the record). -/
def conv_transpose (inputs kernel : Tensor ℚ) (strides : Sum Int (List Int))
    (padding : String) (output_padding : Option Int) (data_format : DataFormat)
    (dilation_rate : Sum Int (List Int)) : Except String ConvCall := do
  let nsd := inputs.ndim - 2
  let st ← standardize_tuple strides nsd "strides"
  let args := compute_conv_transpose_padding_args_for_torch inputs.shape
    kernel.shape st padding output_padding dilation_rate
  let inputs2 ← if data_format = DataFormat.channels_last then
      transpose_spatial_inputs inputs
    else Except.ok inputs
  let kernel2 := transpose_conv_kernel kernel
  let dil : List Int := match dilation_rate with
    | Sum.inl d => List.replicate (kernel2.shape.drop 2).length d
    | Sum.inr ds => ds
  if nsd = 1 ∨ nsd = 2 ∨ nsd = 3 then
    Except.ok (ConvCall.mk nsd inputs2 kernel2 st (Sum.inr dil) 1
      (PadSpec.num args.1))
  else
    Except.error "Inputs to conv transpose operation should have ndim=3, 4, or 5, corresponding to 1D, 2D and 3D inputs."

theorem except_Bind_ok {α β : Type} (a : α) (f : α → Except String β) :
    (Except.ok a : Except String α) >>= f = f a := rfl

theorem except_Bind_error {α β : Type} (msg : String) (f : α → Except String β) :
    (Except.error msg : Except String α) >>= f = Except.error msg := rfl

theorem transpose_spatial_inputs_err (t : Tensor ℚ)
    (h : ¬(t.ndim = 3 ∨ t.ndim = 4 ∨ t.ndim = 5)) :
    transpose_spatial_inputs t = Except.error
      "Inputs must have ndim=3, 4 or 5, corresponding to 1D, 2D and 3D inputs." := by
  push_neg at h
  obtain ⟨h3, h4, h5⟩ := h
  unfold transpose_spatial_inputs
  rw [if_neg (by omega), if_neg (by omega), if_neg (by omega)]

/-- Claim C8: for every input whose rank is outside 3..5, each of `conv`,
`depthwise_conv`, `separable_conv`, `conv_transpose`, `max_pool` and
`average_pool` raises a ValueError (either directly at the rank dispatch,
or earlier in layout transposition or argument standardization — all
invalid-argument errors), under both data formats and all argument
combinations. -/
theorem c8_rank_errors (inputs kernel pointwise : Tensor ℚ)
    (s : Sum Int (List Int)) (padding : String) (df : DataFormat)
    (d : Sum Int (List Int)) (op : Option Int) (ps : Sum Int (List Int))
    (pst : Option (Sum Int (List Int)))
    (h : ¬(inputs.ndim = 3 ∨ inputs.ndim = 4 ∨ inputs.ndim = 5)) :
    isError (conv inputs kernel s padding df d) = true ∧
    isError (depthwise_conv inputs kernel s padding df d) = true ∧
    isError (separable_conv inputs kernel pointwise s padding df d) = true ∧
    isError (conv_transpose inputs kernel s padding op df d) = true ∧
    isError (max_pool inputs ps pst padding df) = true ∧
    isError (average_pool inputs ps pst padding df) = true := by
  have hn3 : inputs.ndim ≠ 3 := fun hc => h (Or.inl hc)
  have hn4 : inputs.ndim ≠ 4 := fun hc => h (Or.inr (Or.inl hc))
  have hn5 : inputs.ndim ≠ 5 := fun hc => h (Or.inr (Or.inr hc))
  have hrank : ¬(inputs.ndim - 2 = 1 ∨ inputs.ndim - 2 = 2 ∨ inputs.ndim - 2 = 3) := by
    omega
  have hconvAll : ∀ k : Tensor ℚ, isError (conv inputs k s padding df d) = true := by
    intro k
    unfold conv
    dsimp only
    cases hst : standardize_tuple s (inputs.ndim - 2) "strides" with
    | error msg => rfl
    | ok stt =>
      (try dsimp only); (try simp only [except_Bind_ok]); (try dsimp only)
      cases df with
      | channels_last =>
        rw [if_pos rfl, transpose_spatial_inputs_err inputs h]
        rfl
      | channels_first =>
        rw [if_neg (by simp)]
        (try dsimp only); (try simp only [except_Bind_ok]); (try dsimp only)
        by_cases hc : (padding = "same" ∧
            stt.any (fun d0 => decide (d0 ≠ 1)) = true)
        · rw [if_pos hc]
          cases hasp : apply_same_padding inputs
              (((transpose_conv_kernel k).shape.drop 2).map (fun dd => (dd : Int)))
              stt false d with
          | error m => rfl
          | ok pr =>
            (try dsimp only); (try simp only [except_Bind_ok]); (try dsimp only)
            by_cases hdiv : (pr.1.shape.getD 1 0 %
                (transpose_conv_kernel k).shape.getD 1 0 > 0)
            · rw [if_pos hdiv]
              rfl
            · rw [if_neg hdiv, if_neg hrank]
              rfl
        · rw [if_neg hc]
          (try dsimp only); (try simp only [except_Bind_ok]); (try dsimp only)
          by_cases hdiv : (inputs.shape.getD 1 0 %
              (transpose_conv_kernel k).shape.getD 1 0 > 0)
          · rw [if_pos hdiv]
            rfl
          · rw [if_neg hdiv, if_neg hrank]
            rfl
  have hdep : isError (depthwise_conv inputs kernel s padding df d) = true := by
    unfold depthwise_conv
    exact hconvAll _
  refine ⟨hconvAll kernel, hdep, ?_, ?_, ?_, ?_⟩
  · unfold separable_conv depthwise_conv_output_tensor
    cases hd : depthwise_conv inputs kernel s padding df d with
    | error m => rfl
    | ok c =>
      exfalso
      rw [hd] at hdep
      simp [isError] at hdep
  · unfold conv_transpose
    dsimp only
    cases hst : standardize_tuple s (inputs.ndim - 2) "strides" with
    | error msg => rfl
    | ok stt =>
      (try dsimp only); (try simp only [except_Bind_ok]); (try dsimp only)
      cases df with
      | channels_last =>
        rw [if_pos rfl, transpose_spatial_inputs_err inputs h]
        rfl
      | channels_first =>
        rw [if_neg (by simp)]
        (try dsimp only); (try simp only [except_Bind_ok]); (try dsimp only)
        rw [if_neg hrank]
        rfl
  · unfold max_pool
    dsimp only
    cases hps : standardize_tuple ps (inputs.ndim - 2) "pool_size" with
    | error msg => rfl
    | ok p2 =>
      (try dsimp only); (try simp only [except_Bind_ok]); (try dsimp only)
      cases pst with
      | none =>
        (try dsimp only); (try simp only [except_Bind_ok]); (try dsimp only)
        cases df with
        | channels_last =>
          rw [if_pos rfl, transpose_spatial_inputs_err inputs h]
          rfl
        | channels_first =>
          rw [if_neg (by simp)]
          (try dsimp only); (try simp only [except_Bind_ok]); (try dsimp only)
          by_cases hsame : padding = "same"
          · rw [if_pos hsame]
            cases hasp : apply_same_padding inputs p2 p2 true (Sum.inl 1) with
            | error m => rfl
            | ok pr =>
              (try dsimp only); (try simp only [except_Bind_ok]); (try dsimp only)
              rw [if_neg hrank]
              rfl
          · rw [if_neg hsame]
            (try dsimp only); (try simp only [except_Bind_ok]); (try dsimp only)
            rw [if_neg hrank]
            rfl
      | some s2 =>
        dsimp only
        cases hst2 : standardize_tuple s2 (inputs.ndim - 2) "strides" with
        | error msg => rfl
        | ok stt =>
          (try dsimp only); (try simp only [except_Bind_ok]); (try dsimp only)
          cases df with
          | channels_last =>
            rw [if_pos rfl, transpose_spatial_inputs_err inputs h]
            rfl
          | channels_first =>
            rw [if_neg (by simp)]
            (try dsimp only); (try simp only [except_Bind_ok]); (try dsimp only)
            by_cases hsame : padding = "same"
            · rw [if_pos hsame]
              cases hasp : apply_same_padding inputs p2 stt true (Sum.inl 1) with
              | error m => rfl
              | ok pr =>
                (try dsimp only); (try simp only [except_Bind_ok]); (try dsimp only)
                rw [if_neg hrank]
                rfl
            · rw [if_neg hsame]
              (try dsimp only); (try simp only [except_Bind_ok]); (try dsimp only)
              rw [if_neg hrank]
              rfl
  · unfold average_pool
    dsimp only
    cases hps : standardize_tuple ps (inputs.ndim - 2) "pool_size" with
    | error msg => rfl
    | ok p2 =>
      (try dsimp only); (try simp only [except_Bind_ok]); (try dsimp only)
      cases pst with
      | none =>
        (try dsimp only); (try simp only [except_Bind_ok]); (try dsimp only)
        cases df with
        | channels_last =>
          rw [if_pos rfl, transpose_spatial_inputs_err inputs h]
          rfl
        | channels_first =>
          rw [if_neg (by simp)]
          (try dsimp only); (try simp only [except_Bind_ok]); (try dsimp only)
          rw [if_neg hrank]
          rfl
      | some s2 =>
        dsimp only
        cases hst2 : standardize_tuple s2 (inputs.ndim - 2) "strides" with
        | error msg => rfl
        | ok stt =>
          (try dsimp only); (try simp only [except_Bind_ok]); (try dsimp only)
          cases df with
          | channels_last =>
            rw [if_pos rfl, transpose_spatial_inputs_err inputs h]
            rfl
          | channels_first =>
            rw [if_neg (by simp)]
            (try dsimp only); (try simp only [except_Bind_ok]); (try dsimp only)
            rw [if_neg hrank]
            rfl

/-- Witness for c8_rank_errors on a rank-6 input (shape all ones) in
channels-first layout with valid padding and scalar arguments. -/
theorem c8_witness :
    isError (conv (Tensor.mk [1, 1, 1, 1, 1, 1] [(0 : ℚ)])
      (Tensor.mk [1, 1, 1, 1, 1, 1] [(0 : ℚ)]) (Sum.inl 1) "valid"
      DataFormat.channels_first (Sum.inl 1)) = true ∧
    isError (depthwise_conv (Tensor.mk [1, 1, 1, 1, 1, 1] [(0 : ℚ)])
      (Tensor.mk [1, 1, 1, 1, 1, 1] [(0 : ℚ)]) (Sum.inl 1) "valid"
      DataFormat.channels_first (Sum.inl 1)) = true ∧
    isError (separable_conv (Tensor.mk [1, 1, 1, 1, 1, 1] [(0 : ℚ)])
      (Tensor.mk [1, 1, 1, 1, 1, 1] [(0 : ℚ)])
      (Tensor.mk [1, 1, 1, 1, 1, 1] [(0 : ℚ)]) (Sum.inl 1) "valid"
      DataFormat.channels_first (Sum.inl 1)) = true ∧
    isError (conv_transpose (Tensor.mk [1, 1, 1, 1, 1, 1] [(0 : ℚ)])
      (Tensor.mk [1, 1, 1, 1, 1, 1] [(0 : ℚ)]) (Sum.inl 1) "valid" none
      DataFormat.channels_first (Sum.inl 1)) = true ∧
    isError (max_pool (Tensor.mk [1, 1, 1, 1, 1, 1] [(0 : ℚ)]) (Sum.inl 1) none
      "valid" DataFormat.channels_first) = true ∧
    isError (average_pool (Tensor.mk [1, 1, 1, 1, 1, 1] [(0 : ℚ)]) (Sum.inl 1)
      none "valid" DataFormat.channels_first) = true :=
  c8_rank_errors (Tensor.mk [1, 1, 1, 1, 1, 1] [(0 : ℚ)])
    (Tensor.mk [1, 1, 1, 1, 1, 1] [(0 : ℚ)])
    (Tensor.mk [1, 1, 1, 1, 1, 1] [(0 : ℚ)]) (Sum.inl 1) "valid"
    DataFormat.channels_first (Sum.inl 1) none (Sum.inl 1) none (by decide)

/-- Claim C3, counterexample: `average_pool` on a length-5 axis with pool
size 4, stride 1 and `same` padding has asymmetric computed padding
`(1, 2)`, yet the native call receives padding `[1]` (the left amount, not
zero) and the input is only padded by the single extra right cell (shape
`[1,1,6]`, not the fully padded `[1,1,8]`). -/
theorem c3_counterexample :
    average_pool (Tensor.mk [1, 1, 5] (List.replicate 5 (0 : ℚ))) (Sum.inl 4)
      (some (Sum.inl 1)) "same" DataFormat.channels_first =
      Except.ok (PoolCall.mk 1 (Tensor.mk [1, 1, 6] (List.replicate 6 (0 : ℚ)))
        [4] [1] (PadSpec.list [1]) false) ∧
    compute_padding_length 5 4 1 1 = (1, 2) ∧
    PadSpec.list [1] ≠ PadSpec.num 0 := by
  refine ⟨by rfl, by decide, by decide⟩

/-- The `(left, right)` pair computed by the `same` branch of
`average_pool` for each spatial dimension of `shape` with scalar pool
size `p` and stride `s` (pooling always uses dilation 1). -/
def samePadPairs (shape : List Nat) (p s : Int) : List (Int × Int) :=
  (List.range (shape.drop 2).length).map (fun j =>
    compute_padding_length ((shape.drop 2).getD j 0 : Int) p s 1)

/-- How many computed `(left, right)` pairs are uneven. -/
def unevenCount (pairs : List (Int × Int)) : Nat :=
  pairs.countP (fun q => decide (q.1 ≠ q.2))

/-- Length of the accumulated `[0, 1]` padding list. -/
theorem flatten_replicate_pair_length (u : Nat) :
    (List.flatten (List.replicate u ([0, 1] : List Int))).length = 2 * u := by
  induction u with
  | zero => rfl
  | succ n ih =>
    rw [List.replicate_succ, List.flatten_cons, List.length_append, ih]
    have h2 : ([0, 1] : List Int).length = 2 := rfl
    rw [h2]
    omega

/-- A block commutes past the flattening of its own replicas. -/
theorem flatten_replicate_comm {α : Type} (n : Nat) (b : List α) :
    List.flatten (List.replicate n b) ++ b = b ++ List.flatten (List.replicate n b) := by
  induction n with
  | zero => simp
  | succ n ih =>
    rw [List.replicate_succ, List.flatten_cons, List.append_assoc, ih]

/-- The `uneven_padding` accumulator of `average_pool` is `[0, 1]`
repeated once per uneven pair, in front of the starting accumulator:
which dimensions were uneven is forgotten, only their number remains. -/
theorem foldl_uneven (l : List (Int × Int)) :
    ∀ acc : List Int,
      l.foldl (fun acc q => if q.1 ≠ q.2 then [0, 1] ++ acc else acc) acc =
        List.flatten (List.replicate (l.countP (fun q => decide (q.1 ≠ q.2)))
          ([0, 1] : List Int)) ++ acc := by
  induction l with
  | nil =>
    intro acc
    simp
  | cons q l ih =>
    intro acc
    rw [List.foldl_cons]
    by_cases hq : q.1 ≠ q.2
    · rw [if_pos hq, ih, List.countP_cons_of_pos _ _ (by simpa using hq),
        List.replicate_succ, List.flatten_cons, ← List.append_assoc,
        flatten_replicate_comm, List.append_assoc]
    · rw [if_neg hq, ih, List.countP_cons_of_neg _ _ (by simpa using hq)]

/-- Entries of the accumulated `[0, 1]` list: zeros at even positions
(left amounts), ones at odd positions (right amounts). -/
theorem flatten_replicate_pair_getD (u k : Nat) (hk : k < u) :
    (List.flatten (List.replicate u ([0, 1] : List Int))).getD (2 * k) 0 = 0 ∧
    (List.flatten (List.replicate u ([0, 1] : List Int))).getD (2 * k + 1) 0 = 1 := by
  induction u generalizing k with
  | zero => exact absurd hk (by omega)
  | succ n ih =>
    rw [List.replicate_succ, List.flatten_cons]
    cases k with
    | zero => exact ⟨rfl, rfl⟩
    | succ m =>
      have hm : m < n := by omega
      constructor
      · show ((0 : Int) :: (1 : Int) ::
          List.flatten (List.replicate n ([0, 1] : List Int))).getD (2 * (m + 1)) 0 = 0
        have h2 : 2 * (m + 1) = 2 * m + 1 + 1 := by ring
        rw [h2, List.getD_cons_succ, List.getD_cons_succ]
        exact (ih m hm).1
      · show ((0 : Int) :: (1 : Int) ::
          List.flatten (List.replicate n ([0, 1] : List Int))).getD (2 * (m + 1) + 1) 0 = 1
        have h2 : 2 * (m + 1) + 1 = 2 * m + 1 + 1 + 1 := by ring
        rw [h2, List.getD_cons_succ, List.getD_cons_succ]
        exact (ih m hm).2

/-- With at least one uneven pair the accumulated padding list is
nonempty, so `average_pool` really calls the padding primitive. -/
theorem flatten_replicate_ne_nil (u : Nat) (hu : u ≠ 0) :
    List.flatten (List.replicate u ([0, 1] : List Int)) ≠ [] := by
  cases u with
  | zero => exact absurd rfl hu
  | succ n =>
    rw [List.replicate_succ, List.flatten_cons]
    simp

/-- Effect of padding with `u` copies of `[0, 1]` on each dimension of a
shape: exactly the last `u` dimensions grow by one cell (the pairs are
consumed from the last dimension backwards), all others are unchanged. -/
theorem padDims_pairs_getD (s : List Nat) (u : Nat) (hu : u ≤ s.length)
    (i : Nat) (hi : i < s.length) :
    (padDims s (List.flatten (List.replicate u ([0, 1] : List Int)))).getD i 0 =
      s.getD i 0 + (if s.length - u ≤ i then 1 else 0) := by
  unfold padDims
  rw [getD_map_range _ s.length i hi]
  rw [flatten_replicate_pair_length]
  by_cases hc : 2 * (s.length - 1 - i) < 2 * u
  · rw [if_pos hc, if_pos (by omega)]
    have hk : s.length - 1 - i < u := by omega
    rw [(flatten_replicate_pair_getD u (s.length - 1 - i) hk).1,
      (flatten_replicate_pair_getD u (s.length - 1 - i) hk).2]
    omega
  · rw [if_neg hc, if_neg (by omega)]
    omega

/-- Claim C3, amended: for a channels-first input of rank 3, 4 or 5 with
scalar pool size and stride, `average_pool` with `same` padding succeeds
and passes the left (shorter) computed padding amount of every spatial
dimension to the native primitive — not zero.  When `u` of the computed
pairs are uneven (`left ≠ right`), the accumulated `[0, 1]` pairs are
consumed by `torch.nn.pad` from the last dimension backwards, so the
input is zero-padded by one extra trailing cell on each of the last `u`
spatial dimensions — not necessarily the uneven ones — and every other
dimension is unchanged. -/
theorem c3_amended (inputs : Tensor ℚ) (p s : Int)
    (hrank : inputs.ndim = 3 ∨ inputs.ndim = 4 ∨ inputs.ndim = 5) :
    ∃ pc, average_pool inputs (Sum.inl p) (some (Sum.inl s)) "same"
        DataFormat.channels_first = Except.ok pc ∧
      pc.padding = PadSpec.list ((samePadPairs inputs.shape p s).map (fun q => q.1)) ∧
      pc.kernel_size = List.replicate (inputs.ndim - 2) p ∧
      pc.strides = List.replicate (inputs.ndim - 2) s ∧
      pc.count_include_pad = false ∧
      ∀ i, i < inputs.ndim → pc.inputs.shape.getD i 0 =
        inputs.shape.getD i 0 +
          (if inputs.ndim - unevenCount (samePadPairs inputs.shape p s) ≤ i
            then 1 else 0) := by
  have standardize_tuple_scalar : ∀ (x : Int) (nn : Nat) (name : String),
      standardize_tuple (Sum.inl x) nn name = Except.ok (List.replicate nn x) :=
    fun _ _ _ => rfl
  have hnsd : inputs.ndim - 2 = 1 ∨ inputs.ndim - 2 = 2 ∨ inputs.ndim - 2 = 3 := by
    rcases hrank with h | h | h <;> omega
  have hsz : (List.range (inputs.shape.drop 2).length).map (fun j =>
      compute_padding_length ((inputs.shape.drop 2).getD j 0 : Int)
        ((List.replicate (inputs.ndim - 2) p).getD j 0)
        ((List.replicate (inputs.ndim - 2) s).getD j 0) 1)
      = samePadPairs inputs.shape p s := by
    unfold samePadPairs
    refine List.map_congr_left (fun j hj => ?_)
    have hj' : j < (inputs.shape.drop 2).length := List.mem_range.mp hj
    have hj2 : j < inputs.ndim - 2 := by
      rw [List.length_drop] at hj'
      exact hj'
    rw [List.getD_eq_getElem (List.replicate (inputs.ndim - 2) p) 0 (by simpa using hj2),
      List.getElem_replicate,
      List.getD_eq_getElem (List.replicate (inputs.ndim - 2) s) 0 (by simpa using hj2),
      List.getElem_replicate]
  have hchar : average_pool inputs (Sum.inl p) (some (Sum.inl s)) "same"
      DataFormat.channels_first = Except.ok (PoolCall.mk (inputs.ndim - 2)
        (if List.flatten (List.replicate
              (unevenCount (samePadPairs inputs.shape p s)) ([0, 1] : List Int)) ≠ [] then
          tnn_pad inputs (List.flatten (List.replicate
            (unevenCount (samePadPairs inputs.shape p s)) ([0, 1] : List Int))) false
        else inputs)
        (List.replicate (inputs.ndim - 2) p) (List.replicate (inputs.ndim - 2) s)
        (PadSpec.list ((samePadPairs inputs.shape p s).map (fun q => q.1))) false) := by
    unfold average_pool
    (try dsimp only)
    (try simp only [standardize_tuple_scalar, except_Bind_ok])
    (try dsimp only)
    rw [if_neg (fun hc => DataFormat.noConfusion hc)]
    (try simp only [except_Bind_ok])
    (try dsimp only)
    rw [if_pos trivial]
    (try dsimp only)
    rw [hsz, foldl_uneven, List.append_nil, if_pos hnsd]
    rfl
  refine ⟨_, hchar, rfl, rfl, rfl, rfl, ?_⟩
  intro i hi
  by_cases hu : unevenCount (samePadPairs inputs.shape p s) = 0
  · rw [hu]
    rw [if_neg (by simp : ¬(List.flatten (List.replicate 0 ([0, 1] : List Int)) ≠ []))]
    rw [if_neg (by omega : ¬(inputs.ndim - 0 ≤ i))]
    rfl
  · have hU : List.flatten (List.replicate
        (unevenCount (samePadPairs inputs.shape p s)) ([0, 1] : List Int)) ≠ [] :=
      flatten_replicate_ne_nil _ hu
    rw [if_pos hU]
    show (padDims inputs.shape (List.flatten (List.replicate
      (unevenCount (samePadPairs inputs.shape p s)) ([0, 1] : List Int)))).getD i 0 = _
    have hcount : unevenCount (samePadPairs inputs.shape p s) ≤ inputs.shape.length := by
      have h1 : unevenCount (samePadPairs inputs.shape p s)
          ≤ (samePadPairs inputs.shape p s).length := List.countP_le_length _
      have h2 : (samePadPairs inputs.shape p s).length = (inputs.shape.drop 2).length := by
        unfold samePadPairs
        rw [List.length_map, List.length_range]
      rw [h2, List.length_drop] at h1
      omega
    exact padDims_pairs_getD inputs.shape _ hcount i hi

/-- Witness for c3_amended at shape `[1, 1, 5]`, pool 4, stride 1 (the
computed pair is `(1, 2)`): the native call receives padding `[1]` and
the padded input has spatial length 6. -/
theorem c3_witness :
    ((Tensor.mk [1, 1, 5] (List.replicate 5 (0 : ℚ))).ndim = 3 ∨
      (Tensor.mk [1, 1, 5] (List.replicate 5 (0 : ℚ))).ndim = 4 ∨
      (Tensor.mk [1, 1, 5] (List.replicate 5 (0 : ℚ))).ndim = 5) ∧
    ∃ pc, average_pool (Tensor.mk [1, 1, 5] (List.replicate 5 (0 : ℚ)))
        (Sum.inl 4) (some (Sum.inl 1)) "same" DataFormat.channels_first =
          Except.ok pc ∧
      pc.padding = PadSpec.list [1] ∧ pc.inputs.shape.getD 2 0 = 6 := by
  obtain ⟨pc, h1, h2, h3, h4, h5, h6⟩ :=
    c3_amended (Tensor.mk [1, 1, 5] (List.replicate 5 (0 : ℚ))) 4 1 (Or.inl rfl)
  refine ⟨Or.inl rfl, pc, h1, ?_, ?_⟩
  · rw [h2]
    rfl
  · rw [h6 2 (by decide)]
    decide

/-- Padding a tensor shape with at most `2 * (rank - 2)` amounts (reverse
dimension order) leaves the channel dimension (index 1) unchanged. -/
theorem padDims_getD_one (s : List Nat) (pads : List Int)
    (hlen : pads.length ≤ 2 * (s.length - 2)) (h2 : 2 ≤ s.length) :
    (padDims s pads).getD 1 0 = s.getD 1 0 := by
  unfold padDims
  rw [getD_map_range _ s.length 1 (by omega)]
  rw [if_neg (by omega)]

/-- Flattening a list of pairs into an interleaved list doubles the
length. -/
theorem flatMap_pair_length (l : List (Int × Int)) :
    (l.flatMap (fun p => [p.1, p.2])).length = 2 * l.length := by
  induction l with
  | nil => rfl
  | cons a l ih =>
    show (([a.1, a.2] : List Int) ++ l.flatMap (fun p => [p.1, p.2])).length = _
    rw [List.length_append, ih]
    simp
    omega

/-- In convolution mode with a scalar dilation rate, `_apply_same_padding`
never raises and never changes the channel dimension of its input: it pads
only trailing spatial dimensions. -/
theorem apply_same_padding_channels (t : Tensor ℚ) (ks ss : List Int)
    (dd : Int) (hge : 3 ≤ t.ndim) :
    ∃ pr, apply_same_padding t ks ss false (Sum.inl dd) = Except.ok pr ∧
      pr.1.shape.getD 1 0 = t.shape.getD 1 0 := by
  have hlen2 : 2 ≤ t.shape.length := hge.trans' (by omega)
  have hnz : ¬((t.shape.drop 2).length = 0) := by
    rw [List.length_drop]
    have : 3 ≤ t.shape.length := hge
    omega
  unfold apply_same_padding
  dsimp only
  rw [if_neg Bool.false_ne_true, if_neg hnz]
  have hstd : standardize_tuple (Sum.inl dd) (t.shape.drop 2).length "dilation_rate"
      = Except.ok (List.replicate (t.shape.drop 2).length dd) := rfl
  rw [hstd]
  simp only [except_Bind_ok]
  by_cases hall : ((List.map
      (fun i => compute_padding_length (((List.drop 2 t.shape).getD i 0 : Int))
        (ks.getD i 0) (ss.getD i 0)
        ((List.replicate (List.drop 2 t.shape).length dd).getD i 0))
      (List.range (List.drop 2 t.shape).length)).reverse.all
      fun p => decide (p.1 = p.2)) = true
  · rw [if_pos hall]
    exact ⟨_, rfl, rfl⟩
  · rw [if_neg hall]
    refine ⟨_, rfl, ?_⟩
    show (padDims t.shape _).getD 1 0 = t.shape.getD 1 0
    refine padDims_getD_one _ _ ?_ hlen2
    rw [flatMap_pair_length, List.length_reverse, List.length_map,
      List.length_range, List.length_drop]

/-- For ranks 3, 4 and 5, `_transpose_spatial_inputs` succeeds, moves the
last (channels-last) dimension to position 1 and preserves the rank. -/
theorem transpose_inputs_channels (t : Tensor ℚ)
    (hrank : t.ndim = 3 ∨ t.ndim = 4 ∨ t.ndim = 5) :
    ∃ u, transpose_spatial_inputs t = Except.ok u ∧
      u.shape.getD 1 0 = t.shape.getD (t.ndim - 1) 0 ∧ u.ndim = t.ndim := by
  obtain ⟨s, d⟩ := t
  rcases hrank with h | h | h
  · obtain ⟨a, b, c, rfl⟩ := List.length_eq_three.mp h
    exact ⟨_, rfl, rfl, rfl⟩
  · obtain ⟨a, b, c, e, rfl⟩ := list_length_eq_four h
    exact ⟨_, rfl, rfl, rfl⟩
  · obtain ⟨a, b, c, e, f, rfl⟩ := list_length_eq_five h
    exact ⟨_, rfl, rfl, rfl⟩

/-- The code's divisibility test `channels % kernel_in > 0` is exactly
non-divisibility, including the degenerate `kernel_in = 0` case. -/
theorem mod_pos_iff_not_dvd (a k : Nat) : 0 < a % k ↔ ¬ k ∣ a := by
  constructor
  · intro h hd
    rw [Nat.mod_eq_zero_of_dvd hd] at h
    exact Nat.lt_irrefl 0 h
  · intro h
    rcases Nat.eq_zero_or_pos (a % k) with h0 | h0
    · exact (h (Nat.dvd_of_mod_eq_zero h0)).elim
    · exact h0

/-- Claim C5, amended: for inputs of rank 3, 4 or 5 with scalar strides
and dilation (either data format, any padding string), `conv` raises a
ValueError if and only if the input channel count after layout
normalization is not evenly divisible by the transposed kernel's
`shape[1]`; and every successful call passes exactly
`channels // kernel_in_channels` as the `groups` argument of the native
convolution primitive.  (The original iff is refuted for other ranks by
`c5_counterexample`.) -/
theorem c5_amended (inputs kernel : Tensor ℚ) (s dd : Int) (padding : String)
    (df : DataFormat)
    (hrank : inputs.ndim = 3 ∨ inputs.ndim = 4 ∨ inputs.ndim = 5) :
    (isError (conv inputs kernel (Sum.inl s) padding df (Sum.inl dd)) = true ↔
      ¬ ((transpose_conv_kernel kernel).shape.getD 1 0 ∣
        (if df = DataFormat.channels_last then inputs.shape.getD (inputs.ndim - 1) 0
         else inputs.shape.getD 1 0))) ∧
    (∀ cc, conv inputs kernel (Sum.inl s) padding df (Sum.inl dd) = Except.ok cc →
      cc.groups = (if df = DataFormat.channels_last then inputs.shape.getD (inputs.ndim - 1) 0
         else inputs.shape.getD 1 0) / (transpose_conv_kernel kernel).shape.getD 1 0) := by
  obtain ⟨v, hveq, hvn, hvc⟩ : ∃ v : Tensor ℚ,
      (if df = DataFormat.channels_last then transpose_spatial_inputs inputs
        else Except.ok inputs) = Except.ok v ∧ v.ndim = inputs.ndim ∧
      v.shape.getD 1 0 = (if df = DataFormat.channels_last then
        inputs.shape.getD (inputs.ndim - 1) 0 else inputs.shape.getD 1 0) := by
    by_cases hdf : df = DataFormat.channels_last
    · obtain ⟨u, hu, huc, hun⟩ := transpose_inputs_channels inputs hrank
      exact ⟨u, by rw [if_pos hdf]; exact hu, hun, by rw [if_pos hdf]; exact huc⟩
    · exact ⟨inputs, by rw [if_neg hdf], rfl, by rw [if_neg hdf]⟩
  have hstd : standardize_tuple (Sum.inl s) (inputs.ndim - 2) "strides"
      = Except.ok (List.replicate (inputs.ndim - 2) s) := rfl
  have hnsd : inputs.ndim - 2 = 1 ∨ inputs.ndim - 2 = 2 ∨ inputs.ndim - 2 = 3 := by
    rcases hrank with h | h | h <;> omega
  have hge : 3 ≤ v.ndim := by
    rcases hrank with h | h | h <;> omega
  have hchar : ∃ (t2 : Tensor ℚ) (psp : PadSpec),
      conv inputs kernel (Sum.inl s) padding df (Sum.inl dd) =
        (if t2.shape.getD 1 0 % (transpose_conv_kernel kernel).shape.getD 1 0 > 0 then
          Except.error "The number of input channels must be evenly divisible by kernel.shape[1]."
        else Except.ok (ConvCall.mk (inputs.ndim - 2) t2 (transpose_conv_kernel kernel)
          (List.replicate (inputs.ndim - 2) s) (Sum.inl dd)
          (t2.shape.getD 1 0 / (transpose_conv_kernel kernel).shape.getD 1 0) psp)) ∧
      t2.shape.getD 1 0 = (if df = DataFormat.channels_last then
        inputs.shape.getD (inputs.ndim - 1) 0 else inputs.shape.getD 1 0) := by
    by_cases hdf : df = DataFormat.channels_last
    · have htr : transpose_spatial_inputs inputs = Except.ok v := by
        rw [if_pos hdf] at hveq
        exact hveq
      by_cases hp : padding = "same" ∧
          ((List.replicate (inputs.ndim - 2) s).any fun d => decide (d ≠ 1)) = true
      · obtain ⟨pr, hpr, hch2⟩ := apply_same_padding_channels v
          (((transpose_conv_kernel kernel).shape.drop 2).map (fun d => (d : Int)))
          (List.replicate (inputs.ndim - 2) s) dd hge
        refine ⟨pr.1, pr.2, ?_, hch2.trans hvc⟩
        unfold conv
        (try dsimp only)
        rw [hstd]
        (try simp only [except_Bind_ok])
        rw [if_pos hdf, htr]
        (try simp only [except_Bind_ok])
        rw [if_pos hp, hpr]
        (try simp only [except_Bind_ok])
        (try dsimp only)
        rw [if_pos hnsd]
      · refine ⟨v, PadSpec.str padding, ?_, hvc⟩
        unfold conv
        (try dsimp only)
        rw [hstd]
        (try simp only [except_Bind_ok])
        rw [if_pos hdf, htr]
        (try simp only [except_Bind_ok])
        rw [if_neg hp]
        (try simp only [except_Bind_ok])
        (try dsimp only)
        rw [if_pos hnsd]
    · have hvi : inputs = v := by
        rw [if_neg hdf] at hveq
        exact Except.ok.inj hveq
      subst hvi
      by_cases hp : padding = "same" ∧
          ((List.replicate (inputs.ndim - 2) s).any fun d => decide (d ≠ 1)) = true
      · obtain ⟨pr, hpr, hch2⟩ := apply_same_padding_channels inputs
          (((transpose_conv_kernel kernel).shape.drop 2).map (fun d => (d : Int)))
          (List.replicate (inputs.ndim - 2) s) dd hge
        refine ⟨pr.1, pr.2, ?_, hch2.trans hvc⟩
        unfold conv
        (try dsimp only)
        rw [hstd]
        (try simp only [except_Bind_ok])
        rw [if_neg hdf]
        (try simp only [except_Bind_ok])
        rw [if_pos hp, hpr]
        (try simp only [except_Bind_ok])
        (try dsimp only)
        rw [if_pos hnsd]
      · refine ⟨inputs, PadSpec.str padding, ?_, hvc⟩
        unfold conv
        (try dsimp only)
        rw [hstd]
        (try simp only [except_Bind_ok])
        rw [if_neg hdf]
        (try simp only [except_Bind_ok])
        rw [if_neg hp]
        (try simp only [except_Bind_ok])
        (try dsimp only)
        rw [if_pos hnsd]
  obtain ⟨t2, psp, heq, hch⟩ := hchar
  rw [← hch]
  constructor
  · rw [heq]
    by_cases hd : t2.shape.getD 1 0 % (transpose_conv_kernel kernel).shape.getD 1 0 > 0
    · rw [if_pos hd]
      simpa [isError] using (mod_pos_iff_not_dvd _ _).mp hd
    · rw [if_neg hd]
      simp only [isError]
      constructor
      · intro hft
        exact absurd hft (by simp)
      · intro hnd
        exact ((hd ((mod_pos_iff_not_dvd _ _).mpr hnd)).elim)
  · intro cc hcc
    rw [heq] at hcc
    by_cases hd : t2.shape.getD 1 0 % (transpose_conv_kernel kernel).shape.getD 1 0 > 0
    · rw [if_pos hd] at hcc
      exact Except.noConfusion hcc
    · rw [if_neg hd] at hcc
      rw [← Except.ok.inj hcc]

/-- Claim C5, counterexample: a rank-6 channels-first input whose channel
count (2) IS evenly divisible by the kernel input-channel count (2) still
makes `conv` raise a ValueError (the spatial-rank dispatch error) — so
divisibility failure is not the only error condition, refuting the
"only if" direction of the claim. -/
theorem c5_counterexample :
    (Tensor.mk [1, 2, 1, 1, 1, 1] (List.replicate 2 (0 : ℚ))).shape.getD 1 0 %
      (transpose_conv_kernel
        (Tensor.mk [3, 2, 1, 1, 1, 1] (List.replicate 6 (0 : ℚ)))).shape.getD 1 0 = 0 ∧
    isError (conv (Tensor.mk [1, 2, 1, 1, 1, 1] (List.replicate 2 (0 : ℚ)))
      (Tensor.mk [3, 2, 1, 1, 1, 1] (List.replicate 6 (0 : ℚ)))
      (Sum.inl 1) "valid" DataFormat.channels_first (Sum.inl 1)) = true :=
  ⟨rfl, rfl⟩

/-- Claim C5, witness: instantiating `c5_amended` at a rank-3
channels-first input with 4 channels and a kernel with 2 input channels:
the call does not raise, and any produced call record carries
`groups = 4 / 2 = 2`. -/
theorem c5_witness :
    isError (conv (Tensor.mk [2, 4, 3] (List.replicate 24 (0 : ℚ)))
      (Tensor.mk [3, 2, 5] (List.replicate 30 (0 : ℚ)))
      (Sum.inl 1) "valid" DataFormat.channels_first (Sum.inl 1)) = false ∧
    ∀ cc, conv (Tensor.mk [2, 4, 3] (List.replicate 24 (0 : ℚ)))
      (Tensor.mk [3, 2, 5] (List.replicate 30 (0 : ℚ)))
      (Sum.inl 1) "valid" DataFormat.channels_first (Sum.inl 1) = Except.ok cc →
      cc.groups = 2 := by
  have h := c5_amended (Tensor.mk [2, 4, 3] (List.replicate 24 (0 : ℚ)))
    (Tensor.mk [3, 2, 5] (List.replicate 30 (0 : ℚ))) 1 1 "valid"
    DataFormat.channels_first (Or.inl rfl)
  refine ⟨?_, fun cc hcc => h.2 cc hcc⟩
  by_cases hb : isError (conv (Tensor.mk [2, 4, 3] (List.replicate 24 (0 : ℚ)))
      (Tensor.mk [3, 2, 5] (List.replicate 30 (0 : ℚ)))
      (Sum.inl 1) "valid" DataFormat.channels_first (Sum.inl 1)) = true
  · exact absurd (h.1.mp hb) (by decide)
  · exact Bool.not_eq_true _ ▸ hb
